import Mathlib

/-!
Verification of the natural-language specification of `IonQAPIservice.py`
(repository felix-cf/quantum-cfd) against a shallow embedding of the code.

Conventions of the embedding:
* Python strings are `List Char`; Python dicts that the code inspects by a
  fixed set of keys become structures of `Option`-valued fields.
* Python numbers are embedded as exact rationals; `int(x)` is truncation
  toward zero (`pyInt`).  Inputs whose Python run would raise
  (ZeroDivisionError, KeyError) make the embedded function return `none`.
* Python str.strip() is modelled on ASCII whitespace (`pyStrip`).
-/

instance {ε α : Type} [DecidableEq ε] [DecidableEq α] : DecidableEq (Except ε α)
  | .error a, .error b => decidable_of_iff (a = b) (by simp)
  | .error _, .ok _ => .isFalse (by simp)
  | .ok _, .error _ => .isFalse (by simp)
  | .ok a, .ok b => decidable_of_iff (a = b) (by simp)

/-- Python ASCII whitespace, the characters removed by `str.strip()`. -/
def pyWhitespace (c : Char) : Bool :=
  c = ' ' || c = '\t' || c = '\n' || c = '\r' || c = '\x0b' || c = '\x0c'

/-- Python `s.strip()`: drop leading and trailing whitespace. -/
def pyStrip (s : List Char) : List Char :=
  ((s.dropWhile pyWhitespace).reverse.dropWhile pyWhitespace).reverse

/-- Python `int(x)` on a rational: truncation toward zero. -/
def pyInt (q : ℚ) : ℤ := if 0 ≤ q then ⌊q⌋ else ⌈q⌉

/-- Sum of the values of an association list (a Python dict's `.values()`). -/
def vsum {α : Type} (l : List (α × ℚ)) : ℚ := (l.map Prod.snd).sum

theorem vsum_nil {α : Type} : vsum ([] : List (α × ℚ)) = 0 := rfl

theorem vsum_cons {α : Type} (p : α × ℚ) (l : List (α × ℚ)) :
    vsum (p :: l) = p.2 + vsum l := rfl

/-- The hex characters accepted by `validate_jobid_hash`
(source line 824: `[*'1234567890abcdef']`, lowercase only). -/
def isHexLower (c : Char) : Bool :=
  ['1', '2', '3', '4', '5', '6', '7', '8', '9', '0',
   'a', 'b', 'c', 'd', 'e', 'f'].contains c

/-- The group-checking loop of `validate_jobid_hash` (source lines 818-825):
zip the expected lengths with the hyphen-separated groups, reject a group of
the wrong length, then a group with a non-hex character.  Error strings elide
the interpolated values of the source messages. -/
def checkGroups : List Nat → List (List Char) → Option String
  | [], _ => none
  | _ :: _, [] => none
  | n :: ns, v :: vs =>
    if v.length ≠ n then
      some "cannot be a valid IonQ JobID (hash of wrong length)"
    else if ¬(v.all isHexLower) then
      some "cannot be a valid IonQ JobID (hash with wrong hex char)"
    else checkGroups ns vs

/-- Embedding of `IonQAPIservice.validate_jobid_hash` (source lines 791-827)
restricted to string input (the dict branch merely projects out the id).
The input is stripped, then required to have length 36 with exactly 4
hyphens, then the five groups are checked against lengths 8,4,4,4,12 and the
lowercase-hex alphabet. -/
def validate_jobid_hash (jobid : List Char) : Except String (List Char) :=
  if (pyStrip jobid).length ≠ 36 ∨ (pyStrip jobid).count '-' ≠ 4 then
    .error "cannot be a valid IonQ JobID"
  else
    match checkGroups [8, 4, 4, 4, 12] ((pyStrip jobid).splitOn '-') with
    | some msg => .error msg
    | none => .ok (pyStrip jobid)

/-- The shape the claim describes, read over an already-stripped string:
36 characters, exactly 4 hyphens, hyphen-delimited groups of lengths
8,4,4,4,12 made only of (lowercase) hex digits. -/
def GoodUID (id : List Char) : Prop :=
  id.length = 36 ∧ id.count '-' = 4 ∧
  (id.splitOn '-').map List.length = [8, 4, 4, 4, 12] ∧
  ∀ v ∈ id.splitOn '-', v.all isHexLower = true

example : validate_jobid_hash "12345678-1234-1234-1234-123456789abc".toList =
    .ok "12345678-1234-1234-1234-123456789abc".toList := by decide

example : validate_jobid_hash "12345678-1234-1234-1234-123456789abz".toList =
    .error "cannot be a valid IonQ JobID (hash with wrong hex char)" := by decide

theorem length_splitOnP' {α : Type} (p : α → Bool) (xs : List α) :
    (xs.splitOnP p).length = xs.countP p + 1 := by
  induction xs with
  | nil => simp
  | cons x xs ih =>
    simp only [List.splitOnP_cons, List.countP_cons]
    split <;> rename_i h <;> simp [ih, h]

theorem length_splitOn' {α : Type} [DecidableEq α] (a : α) (xs : List α) :
    (xs.splitOn a).length = xs.count a + 1 := by
  simp [List.splitOn, List.count, length_splitOnP']

theorem checkGroups_eq_none_iff (ns : List Nat) (vs : List (List Char))
    (h : vs.length = ns.length) :
    checkGroups ns vs = none ↔
      (vs.map List.length = ns ∧ ∀ v ∈ vs, v.all isHexLower = true) := by
  induction ns generalizing vs with
  | nil =>
    cases vs with
    | nil => simp [checkGroups]
    | cons v vs => simp at h
  | cons n ns ih =>
    cases vs with
    | nil => simp at h
    | cons v vs =>
      simp only [List.length_cons, Nat.succ_inj] at h
      by_cases hl : v.length = n
      · by_cases hx : v.all isHexLower = true
        · have step : checkGroups (n :: ns) (v :: vs) = checkGroups ns vs := by
            simp [checkGroups, hl, hx]
          rw [step, ih vs h]
          constructor
          · rintro ⟨hm, hh⟩
            refine ⟨by simp [hl, hm], ?_⟩
            intro w hw
            rcases List.mem_cons.mp hw with rfl | hw
            · exact hx
            · exact hh w hw
          · rintro ⟨hm, hh⟩
            simp only [List.map_cons, List.cons.injEq] at hm
            exact ⟨hm.2, fun w hw => hh w (List.mem_cons_of_mem _ hw)⟩
        · have step : checkGroups (n :: ns) (v :: vs) =
              some "cannot be a valid IonQ JobID (hash with wrong hex char)" := by
            simp [checkGroups, hl, hx]
          rw [step]
          constructor
          · intro hc
            exact absurd hc (by simp)
          · rintro ⟨-, hh⟩
            exact absurd (hh v (List.mem_cons_self v vs)) hx
      · have step : checkGroups (n :: ns) (v :: vs) =
            some "cannot be a valid IonQ JobID (hash of wrong length)" := by
          simp [checkGroups, hl]
        rw [step]
        constructor
        · intro hc
          exact absurd hc (by simp)
        · rintro ⟨hm, -⟩
          simp only [List.map_cons, List.cons.injEq] at hm
          exact absurd hm.1 hl

/-- **C2** (amended): `validate_jobid_hash` first strips leading/trailing
whitespace from the supplied string; it accepts the result (returning it as
the id) if and only if the *stripped* string is 36 characters with exactly 4
hyphens whose five hyphen-delimited groups have lengths 8,4,4,4,12 and
consist only of *lowercase* hex digits; every other string yields an error
result, and the embedded check is a total function (the source code performs
no operation that can raise on a string input). -/
theorem validate_jobid_hash_iff_goodUID :
    (∀ s : List Char, (∃ id, validate_jobid_hash s = .ok id) ↔ GoodUID (pyStrip s)) ∧
    (∀ s id, validate_jobid_hash s = .ok id → id = pyStrip s) := by
  have okval : ∀ s id, validate_jobid_hash s = .ok id → id = pyStrip s := by
    intro s id hid
    unfold validate_jobid_hash at hid
    split at hid
    · simp at hid
    · split at hid
      · simp at hid
      · simpa using hid.symm
  refine ⟨?_, okval⟩
  intro s
  constructor
  · rintro ⟨id, hid⟩
    unfold validate_jobid_hash at hid
    split at hid
    · simp at hid
    · next h1 =>
      push_neg at h1
      split at hid
      · simp at hid
      · next hcg =>
        have hlen5 : ((pyStrip s).splitOn '-').length = 5 := by
          rw [length_splitOn', h1.2]
        have hgrp := (checkGroups_eq_none_iff [8, 4, 4, 4, 12] _
          (by rw [hlen5]; rfl)).mp hcg
        exact ⟨h1.1, h1.2, hgrp.1, hgrp.2⟩
  · rintro ⟨hA, hB, hm, hh⟩
    refine ⟨pyStrip s, ?_⟩
    unfold validate_jobid_hash
    rw [if_neg (by push_neg; exact ⟨hA, hB⟩)]
    have hlen5 : ((pyStrip s).splitOn '-').length = 5 := by
      rw [length_splitOn', hB]
    have hcg := (checkGroups_eq_none_iff [8, 4, 4, 4, 12] _
      (by rw [hlen5]; rfl)).mpr ⟨hm, hh⟩
    rw [hcg]

/-- Witness for C2: the amended theorem applied at a concrete accepted id. -/
theorem validate_jobid_hash_iff_goodUID_witness :
    "12345678-1234-1234-1234-123456789abc".toList =
      pyStrip "12345678-1234-1234-1234-123456789abc".toList :=
  validate_jobid_hash_iff_goodUID.2 _ _ (by decide)

/-- **C2 counterexample**: a 37-character string (a valid id with a leading
space) is *accepted* by `validate_jobid_hash`, refuting the claim that only
strings of exactly 36 characters are accepted: the code strips whitespace
before checking. -/
theorem validate_jobid_hash_counterexample :
    validate_jobid_hash (' ' :: "12345678-1234-1234-1234-123456789abc".toList) =
      .ok "12345678-1234-1234-1234-123456789abc".toList ∧
    (' ' :: "12345678-1234-1234-1234-123456789abc".toList).length = 37 := by decide

/-!
### Result reconciliation inside `retrieve_job` (source lines 950-992)

The raw histogram returned by the service is a mapping from integer-encoded
basis states to numbers; we embed it as an association list of `Nat` keys
and exact-rational values.  `shots` is `float(data["shots"])`, embedded as a
rational.  The decimal literals `0.8` and `1.2` of the source are embedded
exactly as `4/5` and `6/5`.
-/

/-- `bin(int(k))[2:].zfill(w)` (source line 975): binary digits of `k`,
left-padded with zeros to width `w`. -/
def binKey (k w : Nat) : List Char :=
  List.replicate (w - (Nat.toDigits 2 k).length) '0' ++ Nat.toDigits 2 k

/-- Source line 970: `flg_probs = sumcnts > 0.8 and sumcnts < 1.2` — the
raw values are then treated as probabilities, otherwise as counts. -/
def flg_probs (resdata : List (Nat × ℚ)) : Bool :=
  decide (4 / 5 < vsum resdata ∧ vsum resdata < 6 / 5)

/-- Source line 976: `probs[kbin] = v if flg_probs else v/shots`. -/
def probs0 (resdata : List (Nat × ℚ)) (shots : ℚ) (qubits : Nat) :
    List (List Char × ℚ) :=
  resdata.map fun p =>
    (binKey p.1 qubits, if flg_probs resdata then p.2 else p.2 / shots)

/-- Source line 977: `cnts[kbin] = int(v*shots) if flg_probs else v`. -/
def cnts0 (resdata : List (Nat × ℚ)) (shots : ℚ) (qubits : Nat) :
    List (List Char × ℚ) :=
  resdata.map fun p =>
    (binKey p.1 qubits,
      if flg_probs resdata then (pyInt (p.2 * shots) : ℚ) else p.2)

/-- Source lines 986-989: scan for the first key holding the strictly
maximal count, starting from the accumulator `('', 0)`. -/
def maxEntry : List (List Char × ℚ) → (List Char × ℚ) → (List Char × ℚ)
  | [], acc => acc
  | p :: rest, acc => maxEntry rest (if p.2 > acc.2 then p else acc)

/-- Source line 990: `cnts[maxk] += d` — add `d` to the value stored under
`key` (the keys produced by `binKey` are distinct for distinct states). -/
def bumpKey (key : List Char) (d : ℚ) : List (List Char × ℚ) → List (List Char × ℚ)
  | [] => []
  | p :: rest => if p.1 = key then (p.1, p.2 + d) :: rest else p :: bumpKey key d rest

/-- The result-reconciliation block of `retrieve_job` (source lines
962-992): build counts and probabilities from the raw histogram, normalise
the probabilities when their sum is not exactly 1, and add the rounding
shortfall to the maximal count when counts do not sum to `shots`.  `none`
models a Python exception: the `ZeroDivisionError` of normalising a zero
probability sum over a nonempty map, and the `KeyError` of bumping the
sentinel key `''` when no count is positive.  (`shots` is positive in every
job record; the source would also raise on `shots == 0`.) -/
def reconcile (resdata : List (Nat × ℚ)) (shots : ℚ) (qubits : Nat) :
    Option (List (List Char × ℚ) × List (List Char × ℚ)) :=
  let cnts := cnts0 resdata shots qubits
  let probs := probs0 resdata shots qubits
  let sumcnts := vsum cnts
  let sumprobs := vsum probs
  if sumprobs ≠ 1 ∧ sumprobs = 0 ∧ probs ≠ [] then none
  else
    let probs2 :=
      if sumprobs ≠ 1 then probs.map (fun p => (p.1, p.2 / sumprobs)) else probs
    if sumcnts ≠ shots then
      if (maxEntry cnts ([], 0)).1 ∈ cnts.map Prod.fst then
        some (bumpKey (maxEntry cnts ([], 0)).1 (pyInt (shots - sumcnts)) cnts, probs2)
      else none
    else some (cnts, probs2)

theorem pyInt_natCast (n : ℕ) : pyInt (n : ℚ) = (n : ℤ) := by
  simp [pyInt, Nat.cast_nonneg]

theorem pyInt_intCast (z : ℤ) : pyInt (z : ℚ) = z := by
  unfold pyInt
  split
  · exact Int.floor_intCast z
  · exact Int.ceil_intCast z

theorem vsum_map_entry {α β : Type} (f : α × ℚ → β) (g : α × ℚ → ℚ)
    (l : List (α × ℚ)) :
    vsum (l.map fun p => (f p, g p)) = (l.map g).sum := by
  induction l with
  | nil => rfl
  | cons p l ih =>
    simp only [List.map_cons, vsum_cons, List.sum_cons]
    rw [ih]

theorem sum_map_div {α : Type} (g : α → ℚ) (c : ℚ) (l : List α) :
    (l.map fun x => g x / c).sum = (l.map g).sum / c := by
  induction l with
  | nil => simp
  | cons x l ih => simp [ih, add_div]

theorem vsum_map_cast (res : List (Nat × ℕ)) :
    vsum (res.map fun r => (r.1, (r.2 : ℚ))) = ((res.map Prod.snd).sum : ℚ) := by
  induction res with
  | nil => rfl
  | cons r res ih =>
    simp only [List.map_cons, vsum_cons, List.sum_cons]
    rw [ih]
    push_cast
    ring

theorem vsum_bumpKey (k : List Char) (d : ℚ) (l : List (List Char × ℚ))
    (h : k ∈ l.map Prod.fst) : vsum (bumpKey k d l) = vsum l + d := by
  induction l with
  | nil => simp at h
  | cons p rest ih =>
    by_cases hp : p.1 = k
    · simp only [bumpKey, if_pos hp, vsum_cons]
      ring
    · have h' : k ∈ rest.map Prod.fst := by
        rcases List.mem_map.mp h with ⟨q, hq, hk⟩
        rcases List.mem_cons.mp hq with rfl | hq
        · exact absurd hk hp
        · exact List.mem_map.mpr ⟨q, hq, hk⟩
      simp only [bumpKey, if_neg hp, vsum_cons, ih h']
      ring

theorem maxEntry_eq_or_mem (l : List (List Char × ℚ)) (acc : List Char × ℚ) :
    maxEntry l acc = acc ∨ maxEntry l acc ∈ l := by
  induction l generalizing acc with
  | nil => exact Or.inl rfl
  | cons p rest ih =>
    rcases ih (if p.2 > acc.2 then p else acc) with h | h
    · rw [maxEntry, h]
      split
      · exact Or.inr (List.mem_cons_self _ _)
      · exact Or.inl rfl
    · exact Or.inr (List.mem_cons_of_mem _ (by rw [maxEntry]; exact h))

theorem maxEntry_mem_of_exists (l : List (List Char × ℚ)) (acc : List Char × ℚ)
    (h : ∃ p ∈ l, acc.2 < p.2) : maxEntry l acc ∈ l := by
  induction l generalizing acc with
  | nil => simp at h
  | cons q rest ih =>
    rw [maxEntry]
    by_cases hq : acc.2 < q.2
    · rw [if_pos (by exact hq)]
      rcases maxEntry_eq_or_mem rest q with h' | h'
      · rw [h']; exact List.mem_cons_self _ _
      · exact List.mem_cons_of_mem _ h'
    · rw [if_neg (by exact hq)]
      rcases h with ⟨p, hp, hlt⟩
      rcases List.mem_cons.mp hp with rfl | hp
      · exact absurd hlt hq
      · exact List.mem_cons_of_mem _ (ih acc ⟨p, hp, hlt⟩)

theorem exists_pos_of_sum_pos (res : List (Nat × ℕ))
    (h : 0 < (res.map Prod.snd).sum) : ∃ r ∈ res, 0 < r.2 := by
  induction res with
  | nil => simp at h
  | cons r rest ih =>
    by_cases hr : 0 < r.2
    · exact ⟨r, List.mem_cons_self _ _, hr⟩
    · have : (rest.map Prod.snd).sum > 0 := by
        simp only [List.map_cons, List.sum_cons] at h
        omega
      rcases ih this with ⟨q, hq, hqpos⟩
      exact ⟨q, List.mem_cons_of_mem _ hq, hqpos⟩

theorem sum_pyInt_mul (res : List (Nat × ℕ)) (m : ℕ) :
    ((res.map fun r => (r.1, (r.2 : ℚ))).map fun p => (pyInt (p.2 * (m : ℚ)) : ℚ)).sum
      = (((res.map Prod.snd).sum * m : ℕ) : ℚ) := by
  induction res with
  | nil => simp
  | cons r res ih =>
    simp only [List.map_cons, List.sum_cons, ih]
    have h1 : ((r.2 : ℚ) * (m : ℚ)) = ((r.2 * m : ℕ) : ℚ) := by push_cast; ring
    rw [h1, pyInt_natCast]
    push_cast
    ring

/-- **C1** (amended): for every raw result histogram whose values are
non-negative *integers* with positive total, and every positive integer shot
count, the reconciliation in `retrieve_job` succeeds and returns a counts
map whose values sum to exactly the shot count and a probabilities map whose
values sum to exactly 1 (hence within the claimed 1e-9).  The original claim
over arbitrary non-negative numeric values fails: fractional raw counts are
carried into the counts map and the integer-truncated correction cannot
restore exactness (see the counterexample), and an all-zero histogram makes
the source raise. -/
theorem reconcile_conservation (res : List (Nat × ℕ)) (m qubits : Nat)
    (hm : 1 ≤ m) (hpos : 0 < (res.map Prod.snd).sum) :
    ∃ c p, reconcile (res.map fun r => (r.1, (r.2 : ℚ))) (m : ℚ) qubits = some (c, p) ∧
      vsum c = (m : ℚ) ∧ vsum p = 1 ∧ |vsum p - 1| < 1 / 1000000000 := by
  have hSnat : vsum (res.map fun r => (r.1, (r.2 : ℚ)))
      = (((res.map Prod.snd).sum : ℕ) : ℚ) := vsum_map_cast res
  have hmQ : (0 : ℚ) < (m : ℚ) := by exact_mod_cast Nat.lt_of_lt_of_le Nat.zero_lt_one hm
  by_cases hflg : flg_probs (res.map fun r => (r.1, (r.2 : ℚ))) = true
  · -- values treated as probabilities; integer values in (0.8, 1.2) sum to 1
    have h45 : 4 / 5 < (((res.map Prod.snd).sum : ℕ) : ℚ) ∧
        (((res.map Prod.snd).sum : ℕ) : ℚ) < 6 / 5 := by
      simpa [flg_probs, hSnat] using hflg
    have hS1 : (res.map Prod.snd).sum = 1 := by
      have hlt : ((res.map Prod.snd).sum : ℚ) < 2 := lt_trans h45.2 (by norm_num)
      have hlt2 : (res.map Prod.snd).sum < 2 := by exact_mod_cast hlt
      omega
    have hvc : vsum (cnts0 (res.map fun r => (r.1, (r.2 : ℚ))) (m : ℚ) qubits)
        = (m : ℚ) := by
      unfold cnts0
      rw [vsum_map_entry]
      have heq : ((res.map fun r => (r.1, (r.2 : ℚ))).map fun p =>
            if flg_probs (res.map fun r => (r.1, (r.2 : ℚ))) then
              (pyInt (p.2 * (m : ℚ)) : ℚ) else p.2)
          = (res.map fun r => (r.1, (r.2 : ℚ))).map fun p =>
              (pyInt (p.2 * (m : ℚ)) : ℚ) := by
        simp [hflg]
      rw [heq, sum_pyInt_mul, hS1]
      push_cast
      ring
    have hvp : vsum (probs0 (res.map fun r => (r.1, (r.2 : ℚ))) (m : ℚ) qubits) = 1 := by
      unfold probs0
      rw [vsum_map_entry]
      have heq : ((res.map fun r => (r.1, (r.2 : ℚ))).map fun p =>
            if flg_probs (res.map fun r => (r.1, (r.2 : ℚ))) then p.2
            else p.2 / (m : ℚ))
          = (res.map fun r => (r.1, (r.2 : ℚ))).map Prod.snd := by
        simp [hflg]
      rw [heq]
      have := hSnat
      unfold vsum at this
      rw [this, hS1]
      norm_num
    refine ⟨_, _, ?_, hvc, hvp, by rw [hvp]; norm_num⟩
    simp only [reconcile, hvp, hvc]
    norm_num
  · -- values treated as counts
    have hflg' : flg_probs (res.map fun r => (r.1, (r.2 : ℚ))) = false :=
      Bool.eq_false_iff.mpr (by simpa using hflg)
    have hSQpos : (0 : ℚ) < (((res.map Prod.snd).sum : ℕ) : ℚ) := by exact_mod_cast hpos
    have hvc : vsum (cnts0 (res.map fun r => (r.1, (r.2 : ℚ))) (m : ℚ) qubits)
        = (((res.map Prod.snd).sum : ℕ) : ℚ) := by
      unfold cnts0
      rw [vsum_map_entry]
      have heq : ((res.map fun r => (r.1, (r.2 : ℚ))).map fun p =>
            if flg_probs (res.map fun r => (r.1, (r.2 : ℚ))) then
              (pyInt (p.2 * (m : ℚ)) : ℚ) else p.2)
          = (res.map fun r => (r.1, (r.2 : ℚ))).map Prod.snd := by
        simp [hflg']
      rw [heq]
      have := hSnat
      unfold vsum at this
      rw [this]
    have hvp : vsum (probs0 (res.map fun r => (r.1, (r.2 : ℚ))) (m : ℚ) qubits)
        = (((res.map Prod.snd).sum : ℕ) : ℚ) / (m : ℚ) := by
      unfold probs0
      rw [vsum_map_entry]
      have heq : ((res.map fun r => (r.1, (r.2 : ℚ))).map fun p =>
            if flg_probs (res.map fun r => (r.1, (r.2 : ℚ))) then p.2
            else p.2 / (m : ℚ))
          = (res.map fun r => (r.1, (r.2 : ℚ))).map fun p => p.2 / (m : ℚ) := by
        simp [hflg']
      rw [heq, sum_map_div]
      have := hSnat
      unfold vsum at this
      rw [this]
    have hsp0 : (((res.map Prod.snd).sum : ℕ) : ℚ) / (m : ℚ) ≠ 0 :=
      div_ne_zero (ne_of_gt hSQpos) (ne_of_gt hmQ)
    by_cases hSm : (((res.map Prod.snd).sum : ℕ) : ℚ) = (m : ℚ)
    · have hdiv1 : (((res.map Prod.snd).sum : ℕ) : ℚ) / (m : ℚ) = 1 := by
        rw [hSm]
        exact div_self (ne_of_gt hmQ)
      have hres : reconcile (res.map fun r => (r.1, (r.2 : ℚ))) (m : ℚ) qubits
          = some (cnts0 (res.map fun r => (r.1, (r.2 : ℚ))) (m : ℚ) qubits,
              probs0 (res.map fun r => (r.1, (r.2 : ℚ))) (m : ℚ) qubits) := by
        simp only [reconcile, hvp, hvc]
        rw [if_neg (by rintro ⟨h, -, -⟩; exact h hdiv1), if_neg (not_not_intro hSm),
          if_neg (not_not_intro hdiv1)]
      exact ⟨_, _, hres, by rw [hvc, hSm], by rw [hvp, hdiv1],
        by rw [hvp, hdiv1]; norm_num⟩
    · -- counts need the shortfall correction on the maximal entry
      obtain ⟨r, hr, hrpos⟩ := exists_pos_of_sum_pos res hpos
      have h1 : ((r.1, (r.2 : ℚ)) : Nat × ℚ) ∈ res.map fun r => (r.1, (r.2 : ℚ)) :=
        List.mem_map_of_mem _ hr
      have h2 : (binKey r.1 qubits, (r.2 : ℚ)) ∈
          cnts0 (res.map fun r => (r.1, (r.2 : ℚ))) (m : ℚ) qubits := by
        unfold cnts0
        have := List.mem_map_of_mem (fun p : Nat × ℚ =>
          (binKey p.1 qubits,
            if flg_probs (res.map fun r => (r.1, (r.2 : ℚ))) then
              (pyInt (p.2 * (m : ℚ)) : ℚ) else p.2)) h1
        simpa [hflg'] using this
      have hposQ : ((([], 0) : List Char × ℚ)).2 <
          ((binKey r.1 qubits, (r.2 : ℚ)) : List Char × ℚ).2 := by
        show (0 : ℚ) < (r.2 : ℚ)
        exact_mod_cast hrpos
      have hex : ∃ p ∈ cnts0 (res.map fun r => (r.1, (r.2 : ℚ))) (m : ℚ) qubits,
          ((([], 0) : List Char × ℚ)).2 < p.2 := ⟨_, h2, hposQ⟩
      have hmax : maxEntry (cnts0 (res.map fun r => (r.1, (r.2 : ℚ))) (m : ℚ) qubits)
            ([], 0) ∈ cnts0 (res.map fun r => (r.1, (r.2 : ℚ))) (m : ℚ) qubits :=
        maxEntry_mem_of_exists _ _ hex
      have hmem : (maxEntry (cnts0 (res.map fun r => (r.1, (r.2 : ℚ))) (m : ℚ) qubits)
            ([], 0)).1 ∈
          (cnts0 (res.map fun r => (r.1, (r.2 : ℚ))) (m : ℚ) qubits).map Prod.fst :=
        List.mem_map_of_mem Prod.fst hmax
      have hdiv1 : (((res.map Prod.snd).sum : ℕ) : ℚ) / (m : ℚ) ≠ 1 := by
        intro h
        exact hSm ((div_eq_one_iff_eq (ne_of_gt hmQ)).mp h)
      have hbump : vsum (bumpKey
            (maxEntry (cnts0 (res.map fun r => (r.1, (r.2 : ℚ))) (m : ℚ) qubits) ([], 0)).1
            (pyInt ((m : ℚ) - (((res.map Prod.snd).sum : ℕ) : ℚ)))
            (cnts0 (res.map fun r => (r.1, (r.2 : ℚ))) (m : ℚ) qubits)) = (m : ℚ) := by
        rw [vsum_bumpKey _ _ _ hmem, hvc]
        generalize (res.map Prod.snd).sum = S
        have hcast : ((m : ℚ) - ((S : ℕ) : ℚ)) = (((m : ℤ) - (S : ℤ) : ℤ) : ℚ) := by
          push_cast
          ring
        rw [hcast, pyInt_intCast]
        push_cast
        ring
      have hnorm : vsum ((probs0 (res.map fun r => (r.1, (r.2 : ℚ))) (m : ℚ) qubits).map
          fun p => (p.1, p.2 / ((((res.map Prod.snd).sum : ℕ) : ℚ) / (m : ℚ)))) = 1 := by
        rw [vsum_map_entry, sum_map_div]
        have : ((probs0 (res.map fun r => (r.1, (r.2 : ℚ))) (m : ℚ) qubits).map
            Prod.snd).sum = (((res.map Prod.snd).sum : ℕ) : ℚ) / (m : ℚ) := hvp
        rw [this]
        exact div_self hsp0
      have hres : reconcile (res.map fun r => (r.1, (r.2 : ℚ))) (m : ℚ) qubits
          = some (bumpKey
              (maxEntry (cnts0 (res.map fun r => (r.1, (r.2 : ℚ))) (m : ℚ) qubits) ([], 0)).1
              (pyInt ((m : ℚ) - (((res.map Prod.snd).sum : ℕ) : ℚ)))
              (cnts0 (res.map fun r => (r.1, (r.2 : ℚ))) (m : ℚ) qubits),
            (probs0 (res.map fun r => (r.1, (r.2 : ℚ))) (m : ℚ) qubits).map
              fun p => (p.1, p.2 / ((((res.map Prod.snd).sum : ℕ) : ℚ) / (m : ℚ)))) := by
        simp only [reconcile, hvp, hvc]
        rw [if_neg (by rintro ⟨-, h0, -⟩; exact hsp0 h0), if_pos hSm, if_pos hmem,
          if_pos hdiv1]
      exact ⟨_, _, hres, hbump, hnorm, by rw [hnorm]; norm_num⟩

/-- Witness for C1: the amended theorem at the concrete histogram
`{0: 2, 3: 2}` with 4 shots on 2 qubits. -/
theorem reconcile_conservation_witness :
    ∃ c p, reconcile ([((0 : Nat), (2 : ℕ)), (3, 2)].map fun r => (r.1, (r.2 : ℚ)))
        ((4 : ℕ) : ℚ) 2 = some (c, p) ∧
      vsum c = ((4 : ℕ) : ℚ) ∧ vsum p = 1 ∧ |vsum p - 1| < 1 / 1000000000 :=
  reconcile_conservation [(0, 2), (3, 2)] 4 2 (by decide) (by decide)

/-- **C1 counterexample**: a raw histogram with the fractional value `1/2`
(sum outside (0.8, 1.2), hence treated as counts) under 2 declared shots:
the reconciled counts sum to `3/2`, not to the shot count 2.  The source
keeps the fractional raw value as a count and the `int()`-truncated
correction cannot repair the sum. -/
theorem reconcile_conservation_counterexample :
    reconcile [((0 : Nat), (1 : ℚ) / 2)] 2 1 =
      some ([(['0'], 3 / 2)], [(['0'], 1)]) ∧
    vsum [((['0'] : List Char), (3 : ℚ) / 2)] ≠ (2 : ℚ) := by
  have hv : vsum [((0 : Nat), (1 : ℚ) / 2)] = 1 / 2 := by norm_num [vsum]
  have hf : flg_probs [((0 : Nat), (1 : ℚ) / 2)] = false := by
    rw [flg_probs, decide_eq_false_iff_not, hv]
    norm_num
  have hb : binKey 0 1 = ['0'] := by decide
  have hp0 : probs0 [((0 : Nat), (1 : ℚ) / 2)] 2 1 = [(['0'], 1 / 4)] := by
    unfold probs0
    simp only [List.map_cons, List.map_nil]
    rw [hf, if_neg Bool.false_ne_true, hb]
    norm_num
  have hc0 : cnts0 [((0 : Nat), (1 : ℚ) / 2)] 2 1 = [(['0'], 1 / 2)] := by
    unfold cnts0
    simp only [List.map_cons, List.map_nil]
    rw [hf, if_neg Bool.false_ne_true, hb]
  have hvp : vsum [((['0'] : List Char), (1 : ℚ) / 4)] = 1 / 4 := by norm_num [vsum]
  have hvc : vsum [((['0'] : List Char), (1 : ℚ) / 2)] = 1 / 2 := by norm_num [vsum]
  have hpy : pyInt ((2 : ℚ) - 1 / 2) = 1 := by
    rw [pyInt, if_pos (by norm_num), show (2 : ℚ) - 1 / 2 = 3 / 2 by norm_num]
    rw [show (1 : ℤ) = ((1 : ℤ) : ℤ) from rfl, Int.floor_eq_iff]
    constructor <;> norm_num
  have hmx : maxEntry [((['0'] : List Char), (1 : ℚ) / 2)] ([], 0) = (['0'], 1 / 2) := by
    rw [maxEntry, if_pos (by norm_num), maxEntry]
  constructor
  · simp only [reconcile, hp0, hc0, hvp, hvc, hmx]
    rw [if_neg (by rintro ⟨-, h0, -⟩; norm_num at h0),
      if_pos (by norm_num), if_pos (by simp), if_pos (by norm_num)]
    simp only [bumpKey, List.map_cons, List.map_nil]
    rw [if_pos trivial, hpy]
    norm_num
  · norm_num [vsum]

/-- **C4** (amended): the reconciliation treats the raw values as
probabilities if and only if their sum lies in the *open* interval
(0.8, 1.2) — `sumcnts > 0.8 and sumcnts < 1.2` — keeping each probability
as the raw value and rounding `v*shots` for the count; for a sum outside
the open interval (including the endpoints 0.8 and 1.2 themselves) the
values are treated as counts and each probability is `v/shots`. -/
theorem reconcile_mode_iff_open_interval (resdata : List (Nat × ℚ))
    (shots : ℚ) (qubits : Nat) :
    (4 / 5 < vsum resdata ∧ vsum resdata < 6 / 5 →
      probs0 resdata shots qubits = resdata.map (fun p => (binKey p.1 qubits, p.2)) ∧
      cnts0 resdata shots qubits =
        resdata.map (fun p => (binKey p.1 qubits, (pyInt (p.2 * shots) : ℚ)))) ∧
    (¬(4 / 5 < vsum resdata ∧ vsum resdata < 6 / 5) →
      probs0 resdata shots qubits =
        resdata.map (fun p => (binKey p.1 qubits, p.2 / shots)) ∧
      cnts0 resdata shots qubits = resdata.map (fun p => (binKey p.1 qubits, p.2))) := by
  constructor <;> intro h <;> constructor <;> simp [probs0, cnts0, flg_probs, h]

/-- Witness for C4: the amended theorem at the singleton histogram `{0: 1}`
with 2 shots. -/
theorem reconcile_mode_iff_open_interval_witness :
    probs0 [((0 : Nat), (1 : ℚ))] 2 1 = [((0 : Nat), (1 : ℚ))].map
      (fun p => (binKey p.1 1, p.2)) ∧
    cnts0 [((0 : Nat), (1 : ℚ))] 2 1 = [((0 : Nat), (1 : ℚ))].map
      (fun p => (binKey p.1 1, (pyInt (p.2 * 2) : ℚ))) :=
  (reconcile_mode_iff_open_interval [(0, 1)] 2 1).1 (by norm_num [vsum])

/-- **C4 counterexample**: a histogram summing to exactly 0.8 — inside the
claimed *closed* interval — is treated as counts, not probabilities: the
recorded probability is `v/shots = (4/5)/2 = 2/5`, not the raw value `4/5`. -/
theorem reconcile_mode_closed_endpoint_counterexample :
    vsum [((0 : Nat), (4 : ℚ) / 5)] = 4 / 5 ∧
    flg_probs [((0 : Nat), (4 : ℚ) / 5)] = false ∧
    probs0 [((0 : Nat), (4 : ℚ) / 5)] 2 1 = [(['0'], 2 / 5)] := by
  have hv : vsum [((0 : Nat), (4 : ℚ) / 5)] = 4 / 5 := by norm_num [vsum]
  have hf : flg_probs [((0 : Nat), (4 : ℚ) / 5)] = false := by
    rw [flg_probs, decide_eq_false_iff_not, hv]
    norm_num
  have hb : binKey 0 1 = ['0'] := by decide
  refine ⟨hv, hf, ?_⟩
  unfold probs0
  simp only [List.map_cons, List.map_nil]
  rw [hf, if_neg Bool.false_ne_true, hb]
  norm_num

/-!
### Circuit validation: `validate_circuit` (source lines 614-787)

Circuit entries are Python dicts inspected through a fixed set of keys;
we embed them as a structure of `Option`-valued fields (absent key =
`none`).  Qubit operands are integers or lists of integers; parameter
values are kept symbolic (`Param.piMul q` stands for `q*π`, the angles of
the `siswap` macro).  The `parvals` local of the source is computed but
never used after line 693 except for its shape flag, so only the flag is
modelled.
-/

inductive QVal where
  | scalar (q : ℤ)
  | list (qs : List ℤ)
deriving DecidableEq

inductive Param where
  | rat (q : ℚ)
  | piMul (q : ℚ)
deriving DecidableEq

inductive PVal where
  | scalar (p : Param)
  | list (ps : List Param)
deriving DecidableEq

structure Entry where
  gate : Option String := none
  target : Option QVal := none
  targets : Option QVal := none
  control : Option QVal := none
  controls : Option QVal := none
  parameters : Option PVal := none
  parameter : Option PVal := none
  rotations : Option PVal := none
  rotation : Option PVal := none
deriving DecidableEq

/-- Source lines 361-362: translation dict `'qiskit_gate': 'ionq_gate'`. -/
def gates_1q : List (String × String) :=
  [("h", "h"), ("i", "id"), ("id", "id"), ("p", "z"), ("rx", "rx"), ("ry", "ry"),
   ("rz", "rz"), ("not", "x"), ("s", "s"), ("sdg", "si"), ("sx", "v"),
   ("sxdg", "vi"), ("t", "t"), ("tdg", "ti"), ("x", "x"), ("y", "y"), ("z", "z")]

/-- Source lines 363-364. -/
def gates_2q_ctl : List (String × String) :=
  [("ch", "h"), ("cnot", "x"), ("cp", "z"), ("crx", "rx"), ("cry", "ry"),
   ("crz", "rz"), ("cx", "x"), ("cy", "y"), ("cz", "z"), ("csx", "v"),
   ("cv", "v"), ("csxdg", "vi"), ("cvi", "vi")]

/-- Source line 365. -/
def gates_2q_noctl : List (String × String) :=
  [("rxx", "xx"), ("ryy", "yy"), ("rzz", "zz"), ("swap", "swap")]

/-- Source lines 366-367. -/
def gates_mq : List (String × String) :=
  [("mcp", "z"), ("mcphase", "z"), ("mct", "t"), ("ccx", "x"), ("c3x", "x"),
   ("c4x", "x"), ("mcx", "x"), ("mcx_gray", "x"), ("toffoli", "x")]

/-- A macro (special-gate) definition: declared target/control index lists,
parameter list, and the expansion body of
(gate, target-indices, control-indices, parameters) tuples. -/
structure MacroDef where
  tgtIdx : List Nat
  ctlIdx : List Nat
  params : List Param
  body : List (String × List Nat × List Nat × List Param)
deriving DecidableEq

/-- Source lines 375-383: the special gates and their expansions. -/
def gates_special : List (String × MacroDef) :=
  [("sswap", ⟨[0, 1], [], [],
      [("x", [1], [0], []), ("v", [0], [1], []), ("x", [1], [0], [])]⟩),
   ("iswap", ⟨[0, 1], [], [],
      [("s", [0], [], []), ("s", [1], [], []), ("h", [0], [], []),
       ("x", [1], [0], []), ("x", [0], [1], []), ("h", [1], [], [])]⟩),
   ("siswap", ⟨[0, 1], [], [],
      [("v", [0], [], []), ("v", [1], [], []), ("rz", [0], [], [.piMul (1 / 2)]),
       ("x", [1], [0], []), ("v", [0], [], []), ("v", [1], [], []),
       ("rz", [0], [], [.piMul (7 / 2)]), ("rz", [1], [], [.piMul (7 / 2)]),
       ("v", [0], [], []), ("rz", [0], [], [.piMul (1 / 2)]),
       ("x", [1], [0], []), ("v", [0], [], [])]⟩),
   ("cswap", ⟨[0, 1], [0], [],
      [("x", [1], [0], []), ("x", [0], [1, 2], []), ("x", [1], [0], [])]⟩)]

/-- Source lines 640-656: read `target`/`targets`, normalise to a list, and
record whether the stored shape disagreed with the key (list under the
singular key, scalar under the plural key).  `none` when neither key is
present (the source returns the has-no-target error). -/
def normTargets (e : Entry) : Option (List ℤ × Bool) :=
  match e.target with
  | some (.list qs) => some (qs, true)
  | some (.scalar q) => some ([q], false)
  | none =>
    match e.targets with
    | some (.list qs) => some (qs, false)
    | some (.scalar q) => some ([q], true)
    | none => none

/-- Source lines 658-673: read `control`/`controls` analogously; both keys
absent gives an empty control list with no flag. -/
def normControls (e : Entry) : List ℤ × Bool :=
  match e.control with
  | some (.list qs) => (qs, true)
  | some (.scalar q) => ([q], false)
  | none =>
    match e.controls with
    | some (.list qs) => (qs, false)
    | some (.scalar q) => ([q], true)
    | none => ([], false)

/-- Source lines 675-693: a scalar under `parameters` or `rotations` sets
the update flag (`parameter`/`rotation` never do). -/
def parFlag (e : Entry) : Bool :=
  (match e.parameters with
   | some (.scalar _) => true
   | _ => false) ||
  (match e.rotations with
   | some (.scalar _) => true
   | _ => false)

/-- Source lines 725-771: reclassify a non-special gate by its arity.
Returns the possibly renamed gate, the possibly adjusted target/control
lists, and whether a rename or the control-to-target move happened; errors
carry the message suffix after the `circuit entry j:` prefix. -/
def classifyGate (mygate : String) (tgt ctl : List ℤ) :
    Except String (String × List ℤ × List ℤ × Bool) :=
  if tgt.length > 1 then
    if (gates_2q_noctl.map Prod.snd).contains mygate then .ok (mygate, tgt, ctl, false)
    else if (gates_2q_noctl.map Prod.fst).contains mygate then
      .ok ((gates_2q_noctl.lookup mygate).getD mygate, tgt, ctl, true)
    else .error s!"gate {mygate} is not a valid gate with 2 targets"
  else if ctl.length > 1 then
    if (gates_mq.map Prod.snd).contains mygate then .ok (mygate, tgt, ctl, false)
    else if (gates_mq.map Prod.fst).contains mygate then
      .ok ((gates_mq.lookup mygate).getD mygate, tgt, ctl, true)
    else .error s!"gate {mygate} is not a valid multi-qubit gate"
  else if ctl.length = 1 then
    if (gates_2q_ctl.map Prod.snd).contains mygate then .ok (mygate, tgt, ctl, false)
    else if (gates_2q_ctl.map Prod.fst).contains mygate then
      .ok ((gates_2q_ctl.lookup mygate).getD mygate, tgt, ctl, true)
    else if (gates_2q_noctl.map Prod.snd).contains mygate ||
        (gates_2q_noctl.map Prod.fst).contains mygate then
      .ok ((if (gates_2q_noctl.map Prod.snd).contains mygate then mygate
            else (gates_2q_noctl.lookup mygate).getD mygate), tgt ++ ctl, [], true)
    else .error s!"gate {mygate} does not have target and control qubits"
  else
    if (gates_1q.map Prod.snd).contains mygate then .ok (mygate, tgt, ctl, false)
    else if (gates_1q.map Prod.fst).contains mygate then
      .ok ((gates_1q.lookup mygate).getD mygate, tgt, ctl, true)
    else .error s!"gate {mygate} is not a one-qubit gate"

/-- Source lines 776-779: the rewritten record holds only `gate`,
`targets`, and — when controls remain — `controls`. -/
def rewrittenEntry (g : String) (tgt ctl : List ℤ) : Entry :=
  { gate := some g, targets := some (.list tgt),
    controls := if ctl.length > 0 then some (.list ctl) else none }

/-- Source lines 705-720: expand a special gate; body indices select from
the concatenated target+control operand list (always in range for the
table's four macros, so the out-of-range default is never hit). -/
def expandSpecial (md : MacroDef) (tgt ctl : List ℤ) : List Entry :=
  let qbits := tgt ++ ctl
  md.body.map fun b =>
    { gate := some b.1,
      targets := some (.list (b.2.1.map fun i => qbits.getD i 0)),
      controls :=
        if b.2.2.1.length > 0 then
          some (.list (b.2.2.1.map fun i => qbits.getD i 0))
        else none,
      parameters := if b.2.2.2.length > 0 then some (.list b.2.2.2) else none }

/-- Processing of one circuit entry (the loop body, source lines 629-782):
`ok none` models `continue` for an entry without a gate, `ok (some (outs,
flg))` the records appended to the validated output together with whether
the entry's index joins `updated_entries`. -/
def processEntry (j : Nat) (e : Entry) : Except String (Option (List Entry × Bool)) :=
  match e.gate with
  | none => .ok none
  | some mygate =>
    match normTargets e with
    | none => .error s!"circuit entry {j}: Gate {mygate} has no target"
    | some (tgt, tflg) =>
      let ctl := (normControls e).1
      let flg0 := tflg || (normControls e).2 || parFlag e
      match gates_special.lookup mygate with
      | some md =>
        if md.tgtIdx.length ≠ tgt.length ∨ md.ctlIdx.length ≠ ctl.length then
          .error s!"circuit entry {j}: special gate {mygate} has wrong number of targets and/or controls"
        else .ok (some (expandSpecial md tgt ctl, true))
      | none =>
        match classifyGate mygate tgt ctl with
        | .error msg => .error s!"circuit entry {j}: {msg}"
        | .ok (g, tgt2, ctl2, renamed) =>
          if flg0 || renamed then .ok (some ([rewrittenEntry g tgt2 ctl2], true))
          else .ok (some ([e], false))

/-- The validation loop (source lines 629-782): fold `processEntry` over
the entries, accumulating validated records and updated indices. -/
def validateAux : List Entry → Nat → List Entry → List Nat →
    Except String (List Entry × List Nat)
  | [], _, acc, upd => .ok (acc, upd)
  | e :: rest, j, acc, upd =>
    match processEntry j e with
    | .error msg => .error msg
    | .ok none => validateAux rest (j + 1) acc upd
    | .ok (some (outs, flg)) =>
      validateAux rest (j + 1) (acc ++ outs) (if flg then upd ++ [j] else upd)

/-- Embedding of `IonQAPIservice.validate_circuit` (source lines 614-787):
returns the validated circuit and the updated-entry indices, or the first
error; an empty validated list is itself an error (source lines 784-785). -/
def validate_circuit (circuit : List Entry) : Except String (List Entry × List Nat) :=
  match validateAux circuit 0 [] [] with
  | .error msg => .error msg
  | .ok (vc, upd) =>
    if vc.length = 0 then .error "circuit contains no Gates"
    else .ok (vc, upd)

example :
    validate_circuit [{ gate := some "h", target := some (.scalar 0) }] =
      .ok ([{ gate := some "h", target := some (.scalar 0) }], []) := by decide

def xShapeEntry : Entry :=
  { gate := some "x", target := some (.list [1]), control := some (.scalar 0) }

def xShapeOut : Entry :=
  { gate := some "x", targets := some (.list [1]), controls := some (.list [0]) }

example : validate_circuit [xShapeEntry] = .ok ([xShapeOut], [0]) := by decide

/-- The target list an entry denotes (empty when no target key). -/
def entryTargets (e : Entry) : List ℤ :=
  match normTargets e with
  | some (t, _) => t
  | none => []

/-- The control list an entry denotes. -/
def entryControls (e : Entry) : List ℤ := (normControls e).1

/-- The class consistency the validator actually guarantees for each output
record: the gate name belongs to the canonical-name set of the class chosen
by the record's target/control counts; a record with at most one target and
no controls may carry either a single-qubit canonical name or (through the
control-into-target fallback) a two-qubit-uncontrolled canonical name. -/
def gateClassOK (e : Entry) : Bool :=
  match e.gate with
  | none => false
  | some g =>
    if 2 ≤ (entryTargets e).length then (gates_2q_noctl.map Prod.snd).contains g
    else if 2 ≤ (entryControls e).length then (gates_mq.map Prod.snd).contains g
    else if (entryControls e).length = 1 then (gates_2q_ctl.map Prod.snd).contains g
    else (gates_1q.map Prod.snd).contains g || (gates_2q_noctl.map Prod.snd).contains g

theorem lookup_mem_values {l : List (String × String)} {a b : String}
    (h : l.lookup a = some b) : (l.map Prod.snd).contains b = true := by
  induction l with
  | nil => simp [List.lookup] at h
  | cons p rest ih =>
    rw [List.lookup] at h
    cases hak : (a == p.1) with
    | true =>
      rw [hak] at h
      simp only [Option.some.injEq] at h
      subst h
      simp [List.contains_cons]
    | false =>
      rw [hak] at h
      simp only [List.map_cons, List.contains_cons, ih h, Bool.or_true]

theorem keys_contains_lookup_isSome {l : List (String × String)} {a : String}
    (h : (l.map Prod.fst).contains a = true) : ∃ b, l.lookup a = some b := by
  induction l with
  | nil => simp at h
  | cons p rest ih =>
    rw [List.lookup]
    cases hak : (a == p.1) with
    | true => exact ⟨p.2, rfl⟩
    | false =>
      refine ih ?_
      simp only [List.map_cons, List.contains_cons, hak, Bool.false_or] at h
      exact h

/-- Whatever `classifyGate` returns satisfies the class-consistency
predicate, and a result with the rename flag off is the unchanged input. -/
theorem classifyGate_ok (mygate : String) (tgt ctl : List ℤ) (g : String)
    (tgt2 ctl2 : List ℤ) (rn : Bool)
    (h : classifyGate mygate tgt ctl = .ok (g, tgt2, ctl2, rn)) :
    (if 2 ≤ tgt2.length then (gates_2q_noctl.map Prod.snd).contains g = true
     else if 2 ≤ ctl2.length then (gates_mq.map Prod.snd).contains g = true
     else if ctl2.length = 1 then (gates_2q_ctl.map Prod.snd).contains g = true
     else ((gates_1q.map Prod.snd).contains g = true ∨
       (gates_2q_noctl.map Prod.snd).contains g = true)) ∧
    (rn = false → g = mygate ∧ tgt2 = tgt ∧ ctl2 = ctl) := by
  unfold classifyGate at h
  by_cases h1 : tgt.length > 1
  · rw [if_pos h1] at h
    by_cases h2 : (gates_2q_noctl.map Prod.snd).contains mygate = true
    · rw [if_pos h2] at h
      simp only [Except.ok.injEq, Prod.mk.injEq] at h
      obtain ⟨rfl, rfl, rfl, rfl⟩ := h
      exact ⟨by rw [if_pos (by omega)]; exact h2, fun _ => ⟨rfl, rfl, rfl⟩⟩
    · rw [if_neg h2] at h
      by_cases h3 : (gates_2q_noctl.map Prod.fst).contains mygate = true
      · rw [if_pos h3] at h
        simp only [Except.ok.injEq, Prod.mk.injEq] at h
        obtain ⟨rfl, rfl, rfl, rfl⟩ := h
        obtain ⟨b, hb⟩ := keys_contains_lookup_isSome h3
        refine ⟨?_, fun hc => by simp at hc⟩
        rw [if_pos (by omega), hb]
        exact lookup_mem_values hb
      · rw [if_neg h3] at h
        simp at h
  · rw [if_neg h1] at h
    by_cases h1c : ctl.length > 1
    · rw [if_pos h1c] at h
      by_cases h2 : (gates_mq.map Prod.snd).contains mygate = true
      · rw [if_pos h2] at h
        simp only [Except.ok.injEq, Prod.mk.injEq] at h
        obtain ⟨rfl, rfl, rfl, rfl⟩ := h
        exact ⟨by rw [if_neg (by omega), if_pos (by omega)]; exact h2,
          fun _ => ⟨rfl, rfl, rfl⟩⟩
      · rw [if_neg h2] at h
        by_cases h3 : (gates_mq.map Prod.fst).contains mygate = true
        · rw [if_pos h3] at h
          simp only [Except.ok.injEq, Prod.mk.injEq] at h
          obtain ⟨rfl, rfl, rfl, rfl⟩ := h
          obtain ⟨b, hb⟩ := keys_contains_lookup_isSome h3
          refine ⟨?_, fun hc => by simp at hc⟩
          rw [if_neg (by omega), if_pos (by omega), hb]
          exact lookup_mem_values hb
        · rw [if_neg h3] at h
          simp at h
    · rw [if_neg h1c] at h
      by_cases h1e : ctl.length = 1
      · rw [if_pos h1e] at h
        by_cases h2 : (gates_2q_ctl.map Prod.snd).contains mygate = true
        · rw [if_pos h2] at h
          simp only [Except.ok.injEq, Prod.mk.injEq] at h
          obtain ⟨rfl, rfl, rfl, rfl⟩ := h
          exact ⟨by rw [if_neg (by omega), if_neg (by omega), if_pos h1e]; exact h2,
            fun _ => ⟨rfl, rfl, rfl⟩⟩
        · rw [if_neg h2] at h
          by_cases h3 : (gates_2q_ctl.map Prod.fst).contains mygate = true
          · rw [if_pos h3] at h
            simp only [Except.ok.injEq, Prod.mk.injEq] at h
            obtain ⟨rfl, rfl, rfl, rfl⟩ := h
            obtain ⟨b, hb⟩ := keys_contains_lookup_isSome h3
            refine ⟨?_, fun hc => by simp at hc⟩
            rw [if_neg (by omega), if_neg (by omega), if_pos h1e, hb]
            exact lookup_mem_values hb
          · rw [if_neg h3] at h
            by_cases h4 : ((gates_2q_noctl.map Prod.snd).contains mygate ||
                (gates_2q_noctl.map Prod.fst).contains mygate) = true
            · rw [if_pos h4] at h
              simp only [Except.ok.injEq, Prod.mk.injEq] at h
              obtain ⟨rfl, rfl, rfl, rfl⟩ := h
              have hlen : tgt.length + ctl.length ≤ 2 := by omega
              have hval : (gates_2q_noctl.map Prod.snd).contains
                  (if (gates_2q_noctl.map Prod.snd).contains mygate then mygate
                   else (gates_2q_noctl.lookup mygate).getD mygate) = true := by
                by_cases h5 : (gates_2q_noctl.map Prod.snd).contains mygate = true
                · rw [if_pos h5]
                  exact h5
                · rw [if_neg h5]
                  rcases Bool.or_eq_true_iff.mp h4 with h6 | h6
                  · exact absurd h6 h5
                  · obtain ⟨b, hb⟩ := keys_contains_lookup_isSome h6
                    rw [hb]
                    exact lookup_mem_values hb
              refine ⟨?_, fun hc => by simp at hc⟩
              by_cases h7 : 2 ≤ (tgt ++ ctl).length
              · rw [if_pos h7]
                exact hval
              · rw [if_neg h7]
                simp only [List.length_nil]
                rw [if_neg (by omega), if_neg (by omega)]
                exact Or.inr hval
            · rw [if_neg h4] at h
              simp at h
      · rw [if_neg h1e] at h
        by_cases h2 : (gates_1q.map Prod.snd).contains mygate = true
        · rw [if_pos h2] at h
          simp only [Except.ok.injEq, Prod.mk.injEq] at h
          obtain ⟨rfl, rfl, rfl, rfl⟩ := h
          refine ⟨?_, fun _ => ⟨rfl, rfl, rfl⟩⟩
          rw [if_neg (by omega), if_neg (by omega), if_neg h1e]
          exact Or.inl h2
        · rw [if_neg h2] at h
          by_cases h3 : (gates_1q.map Prod.fst).contains mygate = true
          · rw [if_pos h3] at h
            simp only [Except.ok.injEq, Prod.mk.injEq] at h
            obtain ⟨rfl, rfl, rfl, rfl⟩ := h
            obtain ⟨b, hb⟩ := keys_contains_lookup_isSome h3
            refine ⟨?_, fun hc => by simp at hc⟩
            rw [if_neg (by omega), if_neg (by omega), if_neg h1e, hb]
            exact Or.inl (lookup_mem_values hb)
          · rw [if_neg h3] at h
            simp at h

theorem lookup_mem_snd {β : Type} {l : List (String × β)} {a : String} {b : β}
    (h : l.lookup a = some b) : b ∈ l.map Prod.snd := by
  induction l with
  | nil => simp [List.lookup] at h
  | cons p rest ih =>
    rw [List.lookup] at h
    cases hak : (a == p.1) with
    | true =>
      rw [hak] at h
      simp only [Option.some.injEq] at h
      subst h
      exact List.mem_cons_self _ _
    | false =>
      rw [hak] at h
      exact List.mem_cons_of_mem _ (ih h)

theorem record_classOK (gs : String) (ti ci : List Nat) (ps : List Param)
    (qbits : List ℤ)
    (hcase : (if 2 ≤ ti.length then (gates_2q_noctl.map Prod.snd).contains gs
        else if 2 ≤ ci.length then (gates_mq.map Prod.snd).contains gs
        else if ci.length = 1 then (gates_2q_ctl.map Prod.snd).contains gs
        else (gates_1q.map Prod.snd).contains gs ||
          (gates_2q_noctl.map Prod.snd).contains gs) = true) :
    gateClassOK
      { gate := some gs,
        targets := some (.list (ti.map fun i => qbits.getD i 0)),
        controls :=
          if ci.length > 0 then some (.list (ci.map fun i => qbits.getD i 0))
          else none,
        parameters := if ps.length > 0 then some (.list ps) else none } = true := by
  by_cases hc : ci.length > 0
  · rw [if_pos hc] at *
    unfold gateClassOK entryTargets entryControls normTargets normControls
    dsimp only
    simpa [List.length_map] using hcase
  · rw [if_neg hc] at *
    have hnil : ci = [] := List.length_eq_zero.mp (by omega)
    subst hnil
    unfold gateClassOK entryTargets entryControls normTargets normControls
    dsimp only
    simpa [List.length_map] using hcase

theorem expandSpecial_classOK (md : MacroDef) (hmd : md ∈ gates_special.map Prod.snd)
    (tgt ctl : List ℤ) : ∀ o ∈ expandSpecial md tgt ctl, gateClassOK o = true := by
  intro o ho
  unfold expandSpecial at ho
  rcases List.mem_map.mp ho with ⟨b, hb, rfl⟩
  simp only [gates_special, List.map_cons, List.map_nil, List.mem_cons,
    List.not_mem_nil, or_false] at hmd
  rcases hmd with rfl | rfl | rfl | rfl <;>
    fin_cases hb <;>
    exact record_classOK _ _ _ _ _ (by decide)

theorem processEntry_ok_some (j : Nat) (e : Entry) (outs : List Entry) (flg : Bool)
    (h : processEntry j e = .ok (some (outs, flg))) :
    ∀ o ∈ outs, gateClassOK o = true := by
  unfold processEntry at h
  cases hg : e.gate with
  | none =>
    rw [hg] at h
    simp at h
  | some mygate =>
    rw [hg] at h
    dsimp only at h
    cases hnt : normTargets e with
    | none =>
      rw [hnt] at h
      simp at h
    | some tp =>
      obtain ⟨tgt, tflg⟩ := tp
      rw [hnt] at h
      dsimp only at h
      cases hsp : gates_special.lookup mygate with
      | some md =>
        rw [hsp] at h
        dsimp only at h
        split at h
        · simp at h
        · simp only [Except.ok.injEq, Option.some.injEq, Prod.mk.injEq] at h
          obtain ⟨rfl, -⟩ := h
          exact expandSpecial_classOK md (lookup_mem_snd hsp) tgt (normControls e).1
      | none =>
        rw [hsp] at h
        cases hcl : classifyGate mygate tgt (normControls e).1 with
        | error msg =>
          rw [hcl] at h
          simp at h
        | ok r =>
          obtain ⟨g, tgt2, ctl2, rn⟩ := r
          rw [hcl] at h
          dsimp only at h
          have hc := classifyGate_ok mygate tgt (normControls e).1 g tgt2 ctl2 rn hcl
          split at h
          · simp only [Except.ok.injEq, Option.some.injEq, Prod.mk.injEq] at h
            obtain ⟨rfl, -⟩ := h
            intro o ho
            simp only [List.mem_cons, List.not_mem_nil, or_false] at ho
            subst ho
            have hET : entryTargets (rewrittenEntry g tgt2 ctl2) = tgt2 := by
              simp [entryTargets, normTargets, rewrittenEntry]
            have hEC : entryControls (rewrittenEntry g tgt2 ctl2) = ctl2 := by
              by_cases hc2 : ctl2.length > 0
              · simp [entryControls, normControls, rewrittenEntry, hc2]
              · have hnil : ctl2 = [] := List.length_eq_zero.mp (by omega)
                subst hnil
                simp [entryControls, normControls, rewrittenEntry]
            unfold gateClassOK
            simp only [rewrittenEntry] at hET hEC ⊢
            simp only [hET, hEC]
            have := hc.1
            split at this
            · next hcnd => rw [if_pos hcnd]; exact this
            · split at this
              · next hc1 hc2 => rw [if_neg hc1, if_pos hc2]; exact this
              · split at this
                · next hc1 hc2 hc3 =>
                  rw [if_neg hc1, if_neg hc2, if_pos hc3]
                  exact this
                · next hc1 hc2 hc3 =>
                  rw [if_neg hc1, if_neg hc2, if_neg hc3]
                  simpa using this
          · next hflg0 =>
            simp only [Except.ok.injEq, Option.some.injEq, Prod.mk.injEq] at h
            obtain ⟨rfl, -⟩ := h
            intro o ho
            simp only [List.mem_cons, List.not_mem_nil, or_false] at ho
            rw [ho]
            have hrn : rn = false := by
              rcases Bool.eq_false_or_eq_true rn with hr | hr
              · refine absurd ?_ hflg0
                rw [hr]
                simp
              · exact hr
            obtain ⟨hg2, ht2, hctl2⟩ := hc.2 hrn
            have hET : entryTargets e = tgt := by
              unfold entryTargets
              rw [hnt]
            have hc1 := hc.1
            rw [hg2, ht2, hctl2] at hc1
            unfold gateClassOK
            rw [hg]
            dsimp only
            simp only [hET, show entryControls e = (normControls e).1 from rfl]
            split at hc1
            · next hcnd => rw [if_pos hcnd]; exact hc1
            · split at hc1
              · next hd1 hd2 => rw [if_neg hd1, if_pos hd2]; exact hc1
              · split at hc1
                · next hd1 hd2 hd3 =>
                  rw [if_neg hd1, if_neg hd2, if_pos hd3]
                  exact hc1
                · next hd1 hd2 hd3 =>
                  rw [if_neg hd1, if_neg hd2, if_neg hd3]
                  simpa using hc1

theorem validateAux_classOK (cs : List Entry) :
    ∀ (j : Nat) (acc : List Entry) (upd : List Nat) (out : List Entry)
      (res : List Nat),
      validateAux cs j acc upd = .ok (out, res) →
      (∀ o ∈ acc, gateClassOK o = true) → ∀ o ∈ out, gateClassOK o = true := by
  induction cs with
  | nil =>
    intro j acc upd out res h hacc
    simp only [validateAux, Except.ok.injEq, Prod.mk.injEq] at h
    obtain ⟨rfl, -⟩ := h
    exact hacc
  | cons e cs ih =>
    intro j acc upd out res h hacc
    rw [validateAux] at h
    cases hpe : processEntry j e with
    | error m =>
      rw [hpe] at h
      simp at h
    | ok o =>
      rw [hpe] at h
      cases o with
      | none => exact ih _ _ _ _ _ h hacc
      | some p =>
        obtain ⟨outs, flg⟩ := p
        refine ih _ _ _ _ _ h ?_
        intro o ho
        rcases List.mem_append.mp ho with ho | ho
        · exact hacc o ho
        · exact processEntry_ok_some j e outs flg hpe o ho

/-- Single-qubit scenario entry `{"gate": "h", "target": 0}`. -/
def hGateEntry : Entry := { gate := some "h", target := some (.scalar 0) }

/-- **C3** (amended): for every circuit on which `validate_circuit` succeeds,
every operation in the returned validated list is class-consistent in the
weaker sense the code actually enforces: its gate name belongs to the
canonical-name set of the class selected by its target/control counts (two
or more targets: two-qubit-uncontrolled names; else two or more controls:
multi-control names; else one control: two-qubit-controlled names; else
single-qubit or two-qubit-uncontrolled names).  The original claim is
refuted by the counterexample: a pass-through entry is never re-checked
against the full arity contract, so e.g. `swap` with two targets *and* one
control validates unchanged. -/
theorem validate_circuit_class_invariant (circuit out : List Entry) (upd : List Nat)
    (h : validate_circuit circuit = .ok (out, upd)) :
    ∀ o ∈ out, gateClassOK o = true := by
  unfold validate_circuit at h
  cases hva : validateAux circuit 0 [] [] with
  | error m =>
    rw [hva] at h
    simp at h
  | ok p =>
    obtain ⟨vc, u⟩ := p
    rw [hva] at h
    dsimp only at h
    split at h
    · simp at h
    · simp only [Except.ok.injEq, Prod.mk.injEq] at h
      obtain ⟨rfl, rfl⟩ := h
      exact validateAux_classOK circuit 0 [] [] vc u hva (by simp)

/-- Witness for C3: the invariant applied to a concrete validation run. -/
theorem validate_circuit_class_invariant_witness : gateClassOK hGateEntry = true :=
  validate_circuit_class_invariant [hGateEntry] [hGateEntry] [] (by decide)
    hGateEntry (by decide)

/-- Validated-unchanged `swap` operation carrying a control. -/
def swapCtlEntry : Entry :=
  { gate := some "swap", targets := some (.list [0, 1]), controls := some (.list [2]) }

/-- **C3 counterexample**: `validate_circuit` succeeds on a `swap` operation
with 2 targets and 1 control and passes it through unchanged, so a validated
two-qubit-uncontrolled operation does *not* always have exactly 2 targets
and 0 controls as the claim states. -/
theorem validate_circuit_arity_counterexample :
    validate_circuit [swapCtlEntry] = .ok ([swapCtlEntry], []) ∧
    (gates_2q_noctl.map Prod.snd).contains "swap" = true ∧
    swapCtlEntry.gate = some "swap" ∧
    (entryTargets swapCtlEntry).length = 2 ∧
    (entryControls swapCtlEntry).length = 1 := by decide

theorem validateAux_append (xs ys : List Entry) :
    ∀ (j : Nat) (acc : List Entry) (upd : List Nat),
      validateAux (xs ++ ys) j acc upd =
        match validateAux xs j acc upd with
        | .error m => .error m
        | .ok (a, u) => validateAux ys (j + xs.length) a u := by
  induction xs with
  | nil =>
    intro j acc upd
    simp [validateAux]
  | cons e xs ih =>
    intro j acc upd
    simp only [List.cons_append, validateAux, List.length_cons]
    cases hpe : processEntry j e with
    | error m => rfl
    | ok o =>
      cases o with
      | none =>
        dsimp only
        simp only [List.append_eq]
        rw [ih]
        simp only [show j + 1 + xs.length = j + (xs.length + 1) from by omega]
      | some p =>
        obtain ⟨outs, flg⟩ := p
        dsimp only
        simp only [List.append_eq]
        rw [ih]
        simp only [show j + 1 + xs.length = j + (xs.length + 1) from by omega]

theorem validateAux_upd_subset (cs : List Entry) :
    ∀ (j : Nat) (acc : List Entry) (upd : List Nat) (out : List Entry)
      (res : List Nat),
      validateAux cs j acc upd = .ok (out, res) → ∀ x ∈ upd, x ∈ res := by
  induction cs with
  | nil =>
    intro j acc upd out res h
    simp only [validateAux, Except.ok.injEq, Prod.mk.injEq] at h
    obtain ⟨-, rfl⟩ := h
    exact fun x hx => hx
  | cons e cs ih =>
    intro j acc upd out res h
    rw [validateAux] at h
    cases hpe : processEntry j e with
    | error m =>
      rw [hpe] at h
      simp at h
    | ok o =>
      rw [hpe] at h
      cases o with
      | none => exact ih _ _ _ _ _ h
      | some p =>
        obtain ⟨outs, flg⟩ := p
        intro x hx
        refine ih _ _ _ _ _ h x ?_
        cases flg with
        | true =>
          simp only [if_pos rfl]
          exact List.mem_append_left _ hx
        | false =>
          simpa using hx

theorem processEntry_ok_none_gate (j : Nat) (e : Entry)
    (h : processEntry j e = .ok none) : e.gate = none := by
  unfold processEntry at h
  cases hg : e.gate with
  | none => rfl
  | some mygate =>
    rw [hg] at h
    dsimp only at h
    cases hnt : normTargets e with
    | none =>
      rw [hnt] at h
      simp at h
    | some tp =>
      obtain ⟨tgt, tflg⟩ := tp
      rw [hnt] at h
      dsimp only at h
      cases hsp : gates_special.lookup mygate with
      | some md =>
        rw [hsp] at h
        dsimp only at h
        split at h <;> simp at h
      | none =>
        rw [hsp] at h
        dsimp only at h
        cases hcl : classifyGate mygate tgt (normControls e).1 with
        | error msg =>
          rw [hcl] at h
          simp at h
        | ok r =>
          obtain ⟨g, tgt2, ctl2, rn⟩ := r
          rw [hcl] at h
          dsimp only at h
          split at h <;> simp at h

/-- A shape anomaly: the target- or control-normalisation recorded a shape
change (a list stored under the singular key, or a scalar stored under the
plural key). -/
def shapeAnomaly (e : Entry) : Bool :=
  (match normTargets e with
   | some (_, f) => f
   | none => false) || (normControls e).2

theorem processEntry_anomaly_flag (j : Nat) (e : Entry) (outs : List Entry)
    (flg : Bool) (h : processEntry j e = .ok (some (outs, flg)))
    (ha : shapeAnomaly e = true) : flg = true := by
  unfold processEntry at h
  cases hg : e.gate with
  | none =>
    rw [hg] at h
    simp at h
  | some mygate =>
    rw [hg] at h
    dsimp only at h
    cases hnt : normTargets e with
    | none =>
      rw [hnt] at h
      simp at h
    | some tp =>
      obtain ⟨tgt, tflg⟩ := tp
      rw [hnt] at h
      dsimp only at h
      have hor : (tflg || (normControls e).2) = true := by
        unfold shapeAnomaly at ha
        rw [hnt] at ha
        exact ha
      cases hsp : gates_special.lookup mygate with
      | some md =>
        rw [hsp] at h
        dsimp only at h
        split at h
        · simp at h
        · simp only [Except.ok.injEq, Option.some.injEq, Prod.mk.injEq] at h
          exact h.2.symm
      | none =>
        rw [hsp] at h
        dsimp only at h
        cases hcl : classifyGate mygate tgt (normControls e).1 with
        | error msg =>
          rw [hcl] at h
          simp at h
        | ok r =>
          obtain ⟨g, tgt2, ctl2, rn⟩ := r
          rw [hcl] at h
          dsimp only at h
          split at h
          · simp only [Except.ok.injEq, Option.some.injEq, Prod.mk.injEq] at h
            exact h.2.symm
          · next hcond =>
            refine absurd ?_ hcond
            rcases Bool.or_eq_true_iff.mp hor with ht | hcf
            · rw [ht]
              simp
            · rw [hcf]
              simp

theorem validateAux_anomaly_mem (cs : List Entry) :
    ∀ (j : Nat) (acc : List Entry) (upd : List Nat) (out : List Entry)
      (res : List Nat),
      validateAux cs j acc upd = .ok (out, res) →
      ∀ (i : Nat) (e : Entry), cs[i]? = some e → e.gate ≠ none →
        shapeAnomaly e = true → (j + i) ∈ res := by
  induction cs with
  | nil =>
    intro j acc upd out res h i e hget
    simp at hget
  | cons c cs ih =>
    intro j acc upd out res h i e hget hgate ha
    rw [validateAux] at h
    cases hpe : processEntry j c with
    | error m =>
      rw [hpe] at h
      simp at h
    | ok o =>
      rw [hpe] at h
      cases o with
      | none =>
        cases i with
        | zero =>
          simp only [List.getElem?_cons_zero, Option.some.injEq] at hget
          subst hget
          exact absurd (processEntry_ok_none_gate j c hpe) hgate
        | succ i =>
          simp only [List.getElem?_cons_succ] at hget
          have := ih _ _ _ _ _ h i e hget hgate ha
          simpa [show j + 1 + i = j + (i + 1) from by omega] using this
      | some p =>
        obtain ⟨outs, flg⟩ := p
        cases i with
        | zero =>
          simp only [List.getElem?_cons_zero, Option.some.injEq] at hget
          subst hget
          have hflg : flg = true := processEntry_anomaly_flag j c outs flg hpe ha
          subst hflg
          simp only [if_pos rfl] at h
          have hj : j ∈ upd ++ [j] := List.mem_append_right _ (List.mem_cons_self _ _)
          simpa using validateAux_upd_subset cs _ _ _ _ _ h j hj
        | succ i =>
          simp only [List.getElem?_cons_succ] at hget
          have := ih _ _ _ _ _ h i e hget hgate ha
          simpa [show j + 1 + i = j + (i + 1) from by omega] using this

/-- **C7**: `validate_circuit` on `[{"gate": "x", "target": [1], "control": 0}]`
returns the operation `{"gate": "x", "targets": [1], "controls": [0]}` with
index 0 recorded in `updated_entries`; and in general, whenever a gate
entry's stored target or control shape disagrees with its key (a list under
the singular key or a scalar under the plural key), a successful validation
records that entry's index in `updated_entries`. -/
theorem validate_circuit_shape_updates :
    (validate_circuit [xShapeEntry] = .ok ([xShapeOut], [0])) ∧
    ∀ (circuit out : List Entry) (upd : List Nat) (i : Nat) (e : Entry),
      validate_circuit circuit = .ok (out, upd) →
      circuit[i]? = some e → e.gate ≠ none → shapeAnomaly e = true → i ∈ upd := by
  constructor
  · decide
  · intro circuit out upd i e h hget hgate ha
    unfold validate_circuit at h
    cases hva : validateAux circuit 0 [] [] with
    | error m =>
      rw [hva] at h
      simp at h
    | ok p =>
      obtain ⟨vc, u⟩ := p
      rw [hva] at h
      dsimp only at h
      split at h
      · simp at h
      · simp only [Except.ok.injEq, Prod.mk.injEq] at h
        obtain ⟨rfl, rfl⟩ := h
        simpa using validateAux_anomaly_mem circuit 0 [] [] vc u hva i e hget hgate ha

/-- Witness for C7: the general statement applied to the concrete
shape-correction scenario. -/
theorem validate_circuit_shape_updates_witness : (0 : Nat) ∈ ([0] : List Nat) :=
  validate_circuit_shape_updates.2 [xShapeEntry] [xShapeOut] [0] 0 xShapeEntry
    (by decide) (by decide) (by decide) (by decide)

/-- **C6**: if an entry's gate is a special/macro gate and the supplied
target/control counts do not match the macro's declared arity, then —
provided validation reaches that entry (the preceding entries process
without error) — `validate_circuit` fails with an arity error naming the
gate and the entry index, and no output (in particular no partial
expansion) is produced. -/
theorem validate_circuit_macro_arity_error
    (pre post : List Entry) (e : Entry) (g : String) (md : MacroDef)
    (tgt : List ℤ) (tflg : Bool) (acc : List Entry) (upd : List Nat)
    (hpre : validateAux pre 0 [] [] = .ok (acc, upd))
    (hg : e.gate = some g)
    (hsp : gates_special.lookup g = some md)
    (hnt : normTargets e = some (tgt, tflg))
    (hmm : md.tgtIdx.length ≠ tgt.length ∨ md.ctlIdx.length ≠ (normControls e).1.length) :
    validate_circuit (pre ++ e :: post) =
      .error s!"circuit entry {pre.length}: special gate {g} has wrong number of targets and/or controls" := by
  have hpe : processEntry pre.length e =
      .error s!"circuit entry {pre.length}: special gate {g} has wrong number of targets and/or controls" := by
    unfold processEntry
    rw [hg]
    dsimp only
    rw [hnt]
    dsimp only
    rw [hsp]
    dsimp only
    rw [if_pos hmm]
  unfold validate_circuit
  rw [validateAux_append pre (e :: post) 0 [] [], hpre]
  dsimp only
  simp only [Nat.zero_add]
  rw [validateAux, hpe]

/-- The `sswap` macro (declared arity 2 targets, 0 controls) supplied with
a single target. -/
def sswapBadEntry : Entry := { gate := some "sswap", target := some (.scalar 5) }

/-- Witness for C6: the theorem at the 1-target `sswap` entry. -/
theorem validate_circuit_macro_arity_error_witness :
    validate_circuit [sswapBadEntry] =
      .error "circuit entry 0: special gate sswap has wrong number of targets and/or controls" :=
  validate_circuit_macro_arity_error [] [] sswapBadEntry "sswap"
    ⟨[0, 1], [], [], [("x", [1], [0], []), ("v", [0], [1], []), ("x", [1], [0], [])]⟩
    [5] false [] [] (by decide) (by decide) (by decide) (by decide) (by decide)

/-- An already-canonical entry: it has a gate that is not a macro, its
stored shapes are the ones the validator leaves alone (scalar under the
singular key or list under the plural key, parameters/rotations not a
scalar under the plural key), and its gate name is already the canonical
name for the class selected by its arity. -/
def isCanonical (e : Entry) : Bool :=
  match e.gate, normTargets e with
  | some g, some (tgt, false) =>
    (gates_special.lookup g).isNone &&
    ((normControls e).2 == false) &&
    !parFlag e &&
    (if tgt.length > 1 then (gates_2q_noctl.map Prod.snd).contains g
     else if (normControls e).1.length > 1 then (gates_mq.map Prod.snd).contains g
     else if (normControls e).1.length = 1 then (gates_2q_ctl.map Prod.snd).contains g
     else (gates_1q.map Prod.snd).contains g)
  | _, _ => false

theorem classifyGate_pass (g : String) (tgt ctl : List ℤ)
    (hcl : (if tgt.length > 1 then (gates_2q_noctl.map Prod.snd).contains g
        else if ctl.length > 1 then (gates_mq.map Prod.snd).contains g
        else if ctl.length = 1 then (gates_2q_ctl.map Prod.snd).contains g
        else (gates_1q.map Prod.snd).contains g) = true) :
    classifyGate g tgt ctl = .ok (g, tgt, ctl, false) := by
  unfold classifyGate
  by_cases h1 : tgt.length > 1
  · rw [if_pos h1] at hcl ⊢
    rw [if_pos hcl]
  · rw [if_neg h1] at hcl ⊢
    by_cases h2 : ctl.length > 1
    · rw [if_pos h2] at hcl ⊢
      rw [if_pos hcl]
    · rw [if_neg h2] at hcl ⊢
      by_cases h3 : ctl.length = 1
      · rw [if_pos h3] at hcl ⊢
        rw [if_pos hcl]
      · rw [if_neg h3] at hcl ⊢
        rw [if_pos hcl]

theorem processEntry_canonical (j : Nat) (e : Entry)
    (h : isCanonical e = true) : processEntry j e = .ok (some ([e], false)) := by
  unfold isCanonical at h
  cases hg : e.gate with
  | none =>
    rw [hg] at h
    simp at h
  | some g =>
    rw [hg] at h
    cases hnt : normTargets e with
    | none =>
      rw [hnt] at h
      simp at h
    | some tp =>
      obtain ⟨tgt, tflg⟩ := tp
      rw [hnt] at h
      cases tflg with
      | true => simp at h
      | false =>
        dsimp only at h
        simp only [Bool.and_eq_true, Bool.not_eq_true', beq_iff_eq,
          Option.isNone_iff_eq_none] at h
        obtain ⟨⟨⟨hspn, hcf⟩, hpf⟩, hcls⟩ := h
        unfold processEntry
        rw [hg]
        dsimp only
        rw [hnt]
        dsimp only
        rw [hspn]
        dsimp only
        rw [classifyGate_pass g tgt (normControls e).1 hcls]
        dsimp only
        rw [hcf, hpf]
        simp

theorem validateAux_canonical (cs : List Entry) :
    ∀ (j : Nat) (acc : List Entry) (upd : List Nat),
      (∀ e ∈ cs, isCanonical e = true) →
      validateAux cs j acc upd = .ok (acc ++ cs, upd) := by
  induction cs with
  | nil =>
    intro j acc upd hcs
    simp [validateAux]
  | cons e cs ih =>
    intro j acc upd hcs
    rw [validateAux, processEntry_canonical j e (hcs e (List.mem_cons_self _ _))]
    dsimp only
    simp only [Bool.false_eq_true, if_false]
    rw [ih (j + 1) (acc ++ [e]) upd (fun x hx => hcs x (List.mem_cons_of_mem _ hx))]
    simp

/-- **C8** (amended): a `validate_circuit` input whose entries are all
already canonical (well-formed shape and canonical gate name for their
class, see `isCanonical`) is passed through entirely unchanged with an
empty `updated_entries` list; in particular `{"gate": "h", "target": 0}`
validates unchanged.  The further claim that re-validating the output of
*any* successful validation changes nothing is refuted by the
counterexample: some outputs are not well-classified and re-validation
fails on them. -/
theorem validate_circuit_canonical_fixpoint :
    (validate_circuit [hGateEntry] = .ok ([hGateEntry], [])) ∧
    ∀ cs : List Entry, cs ≠ [] → (∀ e ∈ cs, isCanonical e = true) →
      validate_circuit cs = .ok (cs, []) := by
  constructor
  · decide
  · intro cs hne hcs
    unfold validate_circuit
    rw [validateAux_canonical cs 0 [] [] hcs]
    dsimp only
    simp only [List.nil_append]
    rw [if_neg (by simpa [List.length_eq_zero] using hne)]

/-- Witness for C8: the general part applied to the single-entry `h`
circuit. -/
theorem validate_circuit_canonical_fixpoint_witness :
    validate_circuit [hGateEntry] = .ok ([hGateEntry], []) :=
  validate_circuit_canonical_fixpoint.2 [hGateEntry] (by simp) (by decide)

/-- A degenerate entry whose validation succeeds but produces a
non-reclassifiable record. -/
def swapDegenEntry : Entry :=
  { gate := some "swap", target := some (.list []), control := some (.scalar 3) }

/-- The record `validate_circuit` produces for `swapDegenEntry`. -/
def swapDegenOut : Entry := { gate := some "swap", targets := some (.list [3]) }

/-- **C8 counterexample**: validating `{"gate": "swap", "target": [],
"control": 3}` succeeds (the control is folded into the targets), but
re-validating the output fails — `swap` with a single target is not a
one-qubit gate — so re-validating the output of a successful validation
does *not* always change nothing. -/
theorem validate_circuit_revalidation_counterexample :
    validate_circuit [swapDegenEntry] = .ok ([swapDegenOut], [0]) ∧
    validate_circuit [swapDegenOut] =
      .error "circuit entry 0: gate swap is not a one-qubit gate" := by decide

/-- **C10**: when `validate_circuit` rewrites a non-special-gate entry
(because its shape was normalised or its gate name remapped), the record it
appends to the validated output is a fresh record holding only the `gate`
and `targets` keys, plus `controls` exactly when the control list is
non-empty; in particular every `parameters`/`parameter`/`rotations`/
`rotation` value of the input entry is absent from the rewritten record. -/
theorem processEntry_rewrite_frame (j : Nat) (e : Entry) (g : String)
    (outs : List Entry)
    (hg : e.gate = some g) (hsp : gates_special.lookup g = none)
    (h : processEntry j e = .ok (some (outs, true))) :
    ∃ o, outs = [o] ∧ (∃ g2, o.gate = some g2) ∧
      (∃ ts, o.targets = some (.list ts)) ∧
      o.target = none ∧ o.control = none ∧
      (o.controls = none ∨ ∃ cs, cs ≠ [] ∧ o.controls = some (.list cs)) ∧
      o.parameters = none ∧ o.parameter = none ∧
      o.rotations = none ∧ o.rotation = none := by
  unfold processEntry at h
  rw [hg] at h
  dsimp only at h
  cases hnt : normTargets e with
  | none =>
    rw [hnt] at h
    simp at h
  | some tp =>
    obtain ⟨tgt, tflg⟩ := tp
    rw [hnt] at h
    dsimp only at h
    rw [hsp] at h
    dsimp only at h
    cases hcl : classifyGate g tgt (normControls e).1 with
    | error msg =>
      rw [hcl] at h
      simp at h
    | ok r =>
      obtain ⟨g2, tgt2, ctl2, rn⟩ := r
      rw [hcl] at h
      dsimp only at h
      split at h
      · simp only [Except.ok.injEq, Option.some.injEq, Prod.mk.injEq] at h
        obtain ⟨rfl, -⟩ := h
        refine ⟨rewrittenEntry g2 tgt2 ctl2, rfl, ⟨g2, rfl⟩, ⟨tgt2, rfl⟩,
          rfl, rfl, ?_, rfl, rfl, rfl, rfl⟩
        unfold rewrittenEntry
        by_cases hl : ctl2.length > 0
        · exact Or.inr ⟨ctl2, by simpa [List.length_pos] using hl, by simp [hl]⟩
        · exact Or.inl (by simp [hl])
      · simp at h

/-- Witness for C10: the frame condition at the concrete shape-corrected
`x` entry. -/
theorem processEntry_rewrite_frame_witness :
    ∃ o, [xShapeOut] = [o] ∧ (∃ g2, o.gate = some g2) ∧
      (∃ ts, o.targets = some (.list ts)) ∧
      o.target = none ∧ o.control = none ∧
      (o.controls = none ∨ ∃ cs, cs ≠ [] ∧ o.controls = some (.list cs)) ∧
      o.parameters = none ∧ o.parameter = none ∧
      o.rotations = none ∧ o.rotation = none :=
  processEntry_rewrite_frame 0 xShapeEntry "x" [xShapeOut] (by decide) (by decide)
    (by decide)

/-!
### The instruction-translation loop of `translate_qasm` (source lines 580-610)

Statements are modelled post-tokenisation: the mnemonic `vals[0]` plus the
comma-separated operand names of `vals[1]`.  `qname` is the register map
built from the `qreg` declaration.  The Python locals `qtgt`/`qctl` leak
across loop iterations (the guarded assignment at lines 593-595 leaves them
untouched when the last operand is not a register name), so they are
threaded as explicit state; in the `gates_2q_noctl` branch the source
mutates `qtgt` in place (line 598), which the recursion models by passing
the extended list on.  Operand names outside the register map raise
`KeyError` in the source; the embedding is only applied to statements whose
operands resolve, so the `getD 0` defaults are never reached in the
theorems below.
-/

/-- `qname[s]` for a resolvable operand name. -/
def qlookup (qname : List (String × Nat)) (s : String) : ℤ :=
  (((qname.lookup s).getD 0 : ℕ) : ℤ)

/-- The per-statement translation loop. -/
def translateLoop (qname : List (String × Nat)) :
    List (String × List String) → List ℤ → List ℤ → List Entry
  | [], _, _ => []
  | (g, ops) :: rest, qtgt0, qctl0 =>
    if (gates_1q.map Prod.fst).contains g then
      { gate := some ((gates_1q.lookup g).getD g),
        target := some (.scalar (qlookup qname (ops.headD ""))) } ::
        translateLoop qname rest qtgt0 qctl0
    else
      let known := match ops.getLast? with
        | some s => (qname.map Prod.fst).contains s
        | none => false
      let qtgt1 := if known then [qlookup qname (ops.getLastD "")] else qtgt0
      let qctl1 := if known then ops.dropLast.map (qlookup qname) else qctl0
      if (gates_2q_noctl.map Prod.fst).contains g then
        { gate := some ((gates_2q_noctl.lookup g).getD g),
          targets := some (.list (qtgt1 ++ [qlookup qname (ops.headD "")])) } ::
          translateLoop qname rest (qtgt1 ++ [qlookup qname (ops.headD "")]) qctl1
      else if (gates_2q_ctl.map Prod.fst).contains g then
        { gate := some ((gates_2q_ctl.lookup g).getD g),
          targets := some (.list qtgt1), controls := some (.list qctl1) } ::
          translateLoop qname rest qtgt1 qctl1
      else if (gates_mq.map Prod.fst).contains g then
        { gate := some ((gates_mq.lookup g).getD g),
          targets := some (.list qtgt1), controls := some (.list qctl1) } ::
          translateLoop qname rest qtgt1 qctl1
      else
        translateLoop qname rest qtgt1 qctl1

/-- **C5** (amended): an instruction whose mnemonic is absent from every
translation table is silently *dropped* by the translation loop: nothing is
emitted for it, translation continues (it does not fail), and the
instruction never reaches the emitted circuit — it is not passed through to
surface as a downstream validation error. -/
theorem translateLoop_unknown_dropped (qname : List (String × Nat))
    (g : String) (ops : List String) (rest : List (String × List String))
    (qtgt0 qctl0 : List ℤ)
    (h1 : (gates_1q.map Prod.fst).contains g = false)
    (h2 : (gates_2q_noctl.map Prod.fst).contains g = false)
    (h3 : (gates_2q_ctl.map Prod.fst).contains g = false)
    (h4 : (gates_mq.map Prod.fst).contains g = false) :
    ∃ qtgt1 qctl1,
      translateLoop qname ((g, ops) :: rest) qtgt0 qctl0 =
        translateLoop qname rest qtgt1 qctl1 := by
  have hstep : translateLoop qname ((g, ops) :: rest) qtgt0 qctl0 =
      translateLoop qname rest
        (if (match ops.getLast? with
             | some s => (qname.map Prod.fst).contains s
             | none => false) then [qlookup qname (ops.getLastD "")] else qtgt0)
        (if (match ops.getLast? with
             | some s => (qname.map Prod.fst).contains s
             | none => false) then ops.dropLast.map (qlookup qname) else qctl0) := by
    simp only [translateLoop]
    rw [if_neg (by rw [h1]; exact Bool.false_ne_true)]
    rw [if_neg (by rw [h2]; exact Bool.false_ne_true)]
    rw [if_neg (by rw [h3]; exact Bool.false_ne_true)]
    rw [if_neg (by rw [h4]; exact Bool.false_ne_true)]
  exact ⟨_, _, hstep⟩

/-- Witness for C5: the unknown mnemonic `foo` between two known gates
emits nothing and translation proceeds to the rest of the program. -/
theorem translateLoop_unknown_dropped_witness :
    ∃ qtgt1 qctl1,
      translateLoop [("q[0]", 0), ("q[1]", 1)]
          [("foo", ["q[0]"]), ("x", ["q[1]"])] [] [] =
        translateLoop [("q[0]", 0), ("q[1]", 1)] [("x", ["q[1]"])] qtgt1 qctl1 :=
  translateLoop_unknown_dropped [("q[0]", 0), ("q[1]", 1)] "foo" ["q[0]"]
    [("x", ["q[1]"])] [] [] (by decide) (by decide) (by decide) (by decide)

/-- **C5 counterexample**: a three-instruction program whose middle
instruction has the unknown mnemonic `foo` translates, without failing,
into a circuit of only two operations; the unknown instruction is dropped,
not passed through unresolved into the emitted circuit. -/
theorem translateLoop_passthrough_counterexample :
    translateLoop [("q[0]", 0), ("q[1]", 1)]
        [("h", ["q[0]"]), ("foo", ["q[0]"]), ("x", ["q[1]"])] [] [] =
      [{ gate := some "h", target := some (.scalar 0) },
       { gate := some "x", target := some (.scalar 1) }] := by decide

/-!
### The polling loop of `retrieve_job` (source lines 915-1010)

Network and time are external effects; the loop is embedded as a pure
function over response oracles: `sGet n` is the outcome of the (n+1)-st
job-status GET (whether `response.ok` and the reported status), `rGet n`
the outcome of the (n+1)-st result-histogram GET (whether `results.ok` and
the raw histogram).  The returned trace counts status requests, result
requests, and 15-second sleeps.  The job id has already passed
`validate_jobid_hash` (otherwise the source returns the error dict before
the loop).  Line 933 (`wait_minutes *= 4`) turns the minutes budget into
15-second poll intervals; the loop runs while `wait_minutes >= 0`,
decrementing once per sleep, so a fuel of `(w.toNat + 2)` is never
exhausted before the `w < 0` exit fires.
-/

inductive JStatus where
  | submitted
  | ready
  | running
  | completed
  | failed
  | canceled
deriving DecidableEq

structure PollTrace where
  statusGets : Nat
  resultGets : Nat
  sleeps : Nat
deriving DecidableEq

inductive PollOutcome where
  /-- `return data` (line 1001, also reached for failed/canceled via the
  `wait_minutes = 0` reset of line 945). -/
  | data (st : JStatus)
  /-- the completed-and-reconciled return of line 995. -/
  | results (cnts probs : List (List Char × ℚ))
  /-- the reconciliation block raised (an input `reconcile` maps to `none`). -/
  | raised
  /-- the `return {"error": f"{response}"}` of line 1010 after the loop. -/
  | errResp
deriving DecidableEq

/-- One iteration of the `while wait_minutes >= 0` loop (source lines
935-1008); `next` is the continuation for the next iteration after the
`time.sleep(15); wait_minutes -= 1` of lines 1007-1008. -/
def pollStep (sGet : Nat → Bool × JStatus) (rGet : Nat → Bool × List (Nat × ℚ))
    (shots : ℚ) (qubits : Nat) (w : ℤ) (tr : PollTrace)
    (next : ℤ → PollTrace → PollTrace × PollOutcome) : PollTrace × PollOutcome :=
  if w < 0 then (tr, .errResp)
  else
    let ok := (sGet tr.statusGets).1
    let st := (sGet tr.statusGets).2
    let tr1 : PollTrace := ⟨tr.statusGets + 1, tr.resultGets, tr.sleeps⟩
    if ok then
      if st = .completed then
        let rok := (rGet tr1.resultGets).1
        let hist := (rGet tr1.resultGets).2
        let tr2 : PollTrace := ⟨tr1.statusGets, tr1.resultGets + 1, tr1.sleeps⟩
        if rok then
          match reconcile hist shots qubits with
          | some (c, p) => (tr2, .results c p)
          | none => (tr2, .raised)
        else next (w - 1) ⟨tr2.statusGets, tr2.resultGets, tr2.sleeps + 1⟩
      else if st = .failed ∨ st = .canceled then (tr1, .data st)
      else if w ≤ 0 then (tr1, .data st)
      else next (w - 1) ⟨tr1.statusGets, tr1.resultGets, tr1.sleeps + 1⟩
    else next (w - 1) ⟨tr1.statusGets, tr1.resultGets, tr1.sleeps + 1⟩

/-- The polling loop with fuel (always ample for the given budget). -/
def retrieveLoop (sGet : Nat → Bool × JStatus) (rGet : Nat → Bool × List (Nat × ℚ))
    (shots : ℚ) (qubits : Nat) : Nat → ℤ → PollTrace → PollTrace × PollOutcome
  | 0, _, tr => (tr, .errResp)
  | fuel + 1, w, tr =>
    pollStep sGet rGet shots qubits w tr (retrieveLoop sGet rGet shots qubits fuel)

/-- `retrieve_job` after id validation: multiply the minutes budget by 4
and run the poll loop from an empty trace. -/
def retrieve_job_poll (sGet : Nat → Bool × JStatus)
    (rGet : Nat → Bool × List (Nat × ℚ)) (shots : ℚ) (qubits : Nat)
    (wait_minutes : ℤ) : PollTrace × PollOutcome :=
  retrieveLoop sGet rGet shots qubits ((wait_minutes * 4).toNat + 2)
    (wait_minutes * 4) ⟨0, 0, 0⟩

theorem retrieveLoop_neg (sGet : Nat → Bool × JStatus)
    (rGet : Nat → Bool × List (Nat × ℚ)) (shots : ℚ) (qubits : Nat)
    (fuel : Nat) (w : ℤ) (tr : PollTrace) (hw : w < 0) :
    retrieveLoop sGet rGet shots qubits fuel w tr = (tr, .errResp) := by
  cases fuel with
  | zero => rfl
  | succ fuel =>
    show pollStep sGet rGet shots qubits w tr
      (retrieveLoop sGet rGet shots qubits fuel) = (tr, .errResp)
    unfold pollStep
    rw [if_pos hw]

/-- **C9** (amended): with `wait_minutes = 0`, `retrieve_job` issues exactly
one job-status request in every case; if that request succeeds with a
status other than `completed` it returns that status immediately with no
result fetch and no sleep; if the status is `completed` and the result
fetch succeeds it performs exactly that one additional fetch and returns
with no sleep; but when the status request fails, or the status is
`completed` and the result fetch fails, the function sleeps one 15-second
interval before returning an error — refuting the claim that no waiting
interval is ever slept. -/
theorem retrieve_job_zero_wait (sGet : Nat → Bool × JStatus)
    (rGet : Nat → Bool × List (Nat × ℚ)) (shots : ℚ) (qubits : Nat) :
    (retrieve_job_poll sGet rGet shots qubits 0).1.statusGets = 1 ∧
    ((sGet 0).1 = true → (sGet 0).2 ≠ .completed →
      retrieve_job_poll sGet rGet shots qubits 0 = (⟨1, 0, 0⟩, .data (sGet 0).2)) ∧
    ((sGet 0).1 = true → (sGet 0).2 = .completed → (rGet 0).1 = true →
      (retrieve_job_poll sGet rGet shots qubits 0).1 = ⟨1, 1, 0⟩) ∧
    ((sGet 0).1 = false →
      retrieve_job_poll sGet rGet shots qubits 0 = (⟨1, 0, 1⟩, .errResp)) ∧
    ((sGet 0).1 = true → (sGet 0).2 = .completed → (rGet 0).1 = false →
      retrieve_job_poll sGet rGet shots qubits 0 = (⟨1, 1, 1⟩, .errResp)) := by
  have base : retrieve_job_poll sGet rGet shots qubits 0 =
      pollStep sGet rGet shots qubits 0 ⟨0, 0, 0⟩
        (retrieveLoop sGet rGet shots qubits 1) := rfl
  rw [base]
  unfold pollStep
  rw [if_neg (show ¬((0 : ℤ) < 0) by norm_num)]
  dsimp only
  by_cases hok : (sGet 0).1 = true
  · rw [if_pos hok]
    by_cases hst : (sGet 0).2 = JStatus.completed
    · rw [if_pos hst]
      by_cases hrok : (rGet 0).1 = true
      · rw [if_pos hrok]
        cases hrec : reconcile (rGet 0).2 shots qubits with
        | none =>
          refine ⟨rfl, ?_, fun _ _ _ => rfl, ?_, ?_⟩
          · intro _ hne
            exact absurd hst hne
          · intro hf
            rw [hf] at hok
            exact absurd hok (by simp)
          · intro _ _ hrf
            rw [hrf] at hrok
            exact absurd hrok (by simp)
        | some cp =>
          obtain ⟨c, p⟩ := cp
          refine ⟨rfl, ?_, fun _ _ _ => rfl, ?_, ?_⟩
          · intro _ hne
            exact absurd hst hne
          · intro hf
            rw [hf] at hok
            exact absurd hok (by simp)
          · intro _ _ hrf
            rw [hrf] at hrok
            exact absurd hrok (by simp)
      · rw [if_neg hrok]
        rw [retrieveLoop_neg sGet rGet shots qubits 1 (0 - 1) _ (by norm_num)]
        refine ⟨rfl, ?_, ?_, ?_, fun _ _ _ => rfl⟩
        · intro _ hne
          exact absurd hst hne
        · intro _ _ hr
          rw [hr] at hrok
          exact absurd rfl hrok
        · intro hf
          rw [hf] at hok
          exact absurd hok (by simp)
    · rw [if_neg hst]
      by_cases hfc : (sGet 0).2 = JStatus.failed ∨ (sGet 0).2 = JStatus.canceled
      · rw [if_pos hfc]
        refine ⟨rfl, fun _ _ => rfl, ?_, ?_, ?_⟩
        · intro _ hc
          exact absurd hc hst
        · intro hf
          rw [hf] at hok
          exact absurd hok (by simp)
        · intro _ hc
          exact absurd hc hst
      · rw [if_neg hfc, if_pos (show (0 : ℤ) ≤ 0 by norm_num)]
        refine ⟨rfl, fun _ _ => rfl, ?_, ?_, ?_⟩
        · intro _ hc
          exact absurd hc hst
        · intro hf
          rw [hf] at hok
          exact absurd hok (by simp)
        · intro _ hc
          exact absurd hc hst
  · rw [if_neg hok]
    rw [retrieveLoop_neg sGet rGet shots qubits 1 (0 - 1) _ (by norm_num)]
    refine ⟨rfl, ?_, ?_, fun _ => rfl, ?_⟩
    · intro ht
      exact absurd ht hok
    · intro ht
      exact absurd ht hok
    · intro ht
      exact absurd ht hok

/-- Witness for C9: a successful non-completed poll at zero wait — one
status request, no result fetch, no sleep, immediate return of the data. -/
theorem retrieve_job_zero_wait_witness :
    retrieve_job_poll (fun _ => (true, JStatus.ready)) (fun _ => (true, [])) 1 1 0 =
      (⟨1, 0, 0⟩, .data JStatus.ready) :=
  (retrieve_job_zero_wait (fun _ => (true, JStatus.ready)) (fun _ => (true, []))
    1 1).2.1 rfl (by decide)

/-- **C9 counterexample**: status `completed` observed at zero wait but the
result fetch fails: `retrieve_job` performs its one status request and the
result fetch, then sleeps one 15-second interval (sleeps = 1) before
returning an error — it does not return immediately after the fetch as the
claim asserts. -/
theorem retrieve_job_zero_wait_counterexample :
    retrieve_job_poll (fun _ => (true, JStatus.completed)) (fun _ => (false, []))
      1 1 0 = (⟨1, 1, 1⟩, .errResp) := by decide
